import Mathlib

/-!
Shallow embedding of the algorithmic core of the `mep-platform` repository:
the revision-diff engine (`src/backend/src/services/delta.service.ts`), the
spec-correlation/gap engine (`src/backend/src/services/spec.service.ts`) and
the manufacturer-equivalency engine
(`src/backend/src/services/equivalency.service.ts`).

Modelling conventions:
- JS strings are Lean `String`s; `toUpperCase`/`toLowerCase` are modelled by
  mapping `Char.toUpper`/`Char.toLower` over the character data (identical to
  JS on ASCII input, and kernel-reducible).
- JS numbers are `ℚ`; the float value `NaN` (which the code can produce via
  `parseFloat`) is modelled explicitly by the `JSVal.nan` constructor, and
  every comparison involving it follows IEEE semantics (all `<`, `>`, `===`
  comparisons with `NaN` are false).
- JS `Map` built from an entry list is modelled by an association list with a
  last-entry-wins lookup (`Map` construction overwrites earlier keys).
- JS `Set` iteration order (insertion order, first occurrence kept) is
  modelled by `dedupFirst`.
- `Array.prototype.sort` with a comparator is stable (TimSort); it is
  modelled by the stable `List.mergeSort`.
- `Number.prototype.toFixed(0)` (round half away from zero; inputs here are
  nonnegative) is modelled by `⌊q + 1/2⌋`.
-/

namespace MEP

/-- JS `toUpperCase`, modelled character-wise (ASCII-faithful). -/
def toUpperS (s : String) : String := ⟨s.data.map Char.toUpper⟩

/-- JS `toLowerCase`, modelled character-wise (ASCII-faithful). -/
def toLowerS (s : String) : String := ⟨s.data.map Char.toLower⟩

/-- JS `Number.prototype.toFixed(0)` for the nonnegative values that occur
here: round half away from zero, rendered in decimal. -/
def jsToFixed0 (q : ℚ) : String := toString (Int.floor (q + 1/2))

/-- JS `Math.round` (round half toward `+∞`). -/
def jsRound (q : ℚ) : Int := Int.floor (q + 1/2)

/-- JS `Set` construction from a list: keep the first occurrence of each
element, in insertion order. -/
def dedupFirst : List String → List String
  | [] => []
  | a :: t => a :: dedupFirst (t.filter (fun x => x ≠ a))
termination_by l => l.length
decreasing_by
  simpa using Nat.lt_succ_of_le (List.length_filter_le _ t)

/-- JS `Array.prototype.join("\n")` / template-literal line assembly. -/
def joinLines : List String → String
  | [] => ""
  | [l] => l
  | l :: l2 :: ls => l ++ "\n" ++ joinLines (l2 :: ls)

/-! ## Data model

The backend `Equipment` record shape, as used by the three services
(`tag`, `type`, `category`, `sizes` as `(type, value)` pairs,
`specs_references`, `raw_text`, `confidence`, `page_number`). -/

structure SizeEntry where
  type : String
  value : String
deriving DecidableEq

structure Equipment where
  tag : String
  type : String
  category : String
  sizes : List SizeEntry
  specs_references : List String
  raw_text : String
  confidence : ℚ
  page_number : Int
deriving DecidableEq

/-! ## Delta service (`delta.service.ts`) -/

structure DeltaChange where
  tag : String
  old : Equipment
  new : Equipment
  differences : List String
deriving DecidableEq

structure DeltaSummary where
  addedCount : Nat
  removedCount : Nat
  changedCount : Nat
  unchangedCount : Nat
  totalChangePercent : Int
deriving DecidableEq

structure DeltaResult where
  added : List Equipment
  removed : List Equipment
  changed : List DeltaChange
  unchanged : List Equipment
  summary : DeltaSummary
deriving DecidableEq

/-- The lookup-map key: `e.tag.toUpperCase()`. -/
def tagKey (e : Equipment) : String := toUpperS e.tag

/-- `new Map(list.map(e => [e.tag.toUpperCase(), e])).get(t)`: the last entry
whose uppercased tag is `t` wins (later `Map` entries overwrite earlier
ones). -/
def lookupTag (l : List Equipment) (t : String) : Option Equipment :=
  l.foldl (fun acc e => if tagKey e = t then some e else acc) none

/-- The `${s.type}:${s.value}` key used for the size set-difference. -/
def sizeKey (s : SizeEntry) : String := s.type ++ ":" ++ s.value

/-- `findDifferences` from `delta.service.ts`: size set-differences, a
confidence change beyond `0.2`, a page-number change, a `type` change. -/
def findDifferences (eq1 eq2 : Equipment) : List String :=
  let sizes1 := eq1.sizes.map sizeKey
  let sizes2 := eq2.sizes.map sizeKey
  let addedSizes := (dedupFirst sizes2).filter (fun s => s ∉ sizes1)
  let removedSizes := (dedupFirst sizes1).filter (fun s => s ∉ sizes2)
  addedSizes.map (fun s => "Size added: " ++ s)
    ++ removedSizes.map (fun s => "Size removed: " ++ s)
    ++ (if 1/5 < |eq1.confidence - eq2.confidence| then
          ["Confidence changed: " ++ jsToFixed0 (eq1.confidence * 100) ++ "% → "
            ++ jsToFixed0 (eq2.confidence * 100) ++ "%"]
        else [])
    ++ (if eq1.page_number ≠ eq2.page_number then
          ["Page changed: " ++ toString eq1.page_number ++ " → "
            ++ toString eq2.page_number]
        else [])
    ++ (if eq1.type ≠ eq2.type then
          ["Type changed: " ++ eq1.type ++ " → " ++ eq2.type]
        else [])

/-- The deduplicated union of uppercased tags (`new Set([...])`, insertion
order). -/
def allTags (l1 l2 : List Equipment) : List String :=
  dedupFirst (l1.map tagKey ++ l2.map tagKey)

/-- `compareTakeoffs` from `delta.service.ts`.  The single loop over
`allTags` that pushes each tag into one of the four buckets is rendered as
one `filterMap` per bucket: every tag satisfies exactly one of the four
guards, so the lists produced are element-for-element those of the loop. -/
def compareTakeoffs (equipment1 equipment2 : List Equipment) : DeltaResult :=
  let tags := allTags equipment1 equipment2
  let added := tags.filterMap (fun t =>
    match lookupTag equipment1 t, lookupTag equipment2 t with
    | none, some e => some e
    | _, _ => none)
  let removed := tags.filterMap (fun t =>
    match lookupTag equipment1 t, lookupTag equipment2 t with
    | some e, none => some e
    | _, _ => none)
  let changed := tags.filterMap (fun t =>
    match lookupTag equipment1 t, lookupTag equipment2 t with
    | some e1, some e2 =>
        if findDifferences e1 e2 ≠ [] then
          some ⟨t, e1, e2, findDifferences e1 e2⟩
        else none
    | _, _ => none)
  let unchanged := tags.filterMap (fun t =>
    match lookupTag equipment1 t, lookupTag equipment2 t with
    | some e1, some e2 => if findDifferences e1 e2 = [] then some e1 else none
    | _, _ => none)
  let total : ℚ := if equipment1.length = 0 then 1 else equipment1.length
  let changedItems : ℚ := added.length + removed.length + changed.length
  { added := added
    removed := removed
    changed := changed
    unchanged := unchanged
    summary :=
      { addedCount := added.length
        removedCount := removed.length
        changedCount := changed.length
        unchangedCount := unchanged.length
        totalChangePercent := jsRound (changedItems / total * 100) } }

/-! ## Spec service (`spec.service.ts`) -/

structure SpecSection where
  reference : String
  content : String
deriving DecidableEq

inductive GapSeverity
  | high
  | medium
  | low
deriving DecidableEq

structure SpecGap where
  equipmentTag : String
  equipmentType : String
  issue : String
  severity : GapSeverity
  suggestion : Option String
deriving DecidableEq

/-- Character class of the regex `\d` (ASCII digits). -/
def isDigitChar (c : Char) : Bool := c.isDigit

/-- Character class `[\s-]` of the section-number regex: whitespace or
hyphen. -/
def isSepChar (c : Char) : Bool :=
  c = ' ' || c = '\t' || c = '\n' || c = '\r' || c = '-'

/-- Take exactly `n` leading characters satisfying `p` (the regex atom
`p{n}`); fails if fewer are available. -/
def takeCount (p : Char → Bool) : Nat → List Char → Option (List Char × List Char)
  | 0, l => some ([], l)
  | _ + 1, [] => none
  | n + 1, c :: t =>
      if p c then (takeCount p n t).map (fun a => (c :: a.1, a.2)) else none

/-- Matching the regex `\d{2}[\s-]*\d{2}[\s-]*\d{4}` at the head of `l`,
returning the matched characters.  Because the digit class and the separator
class are disjoint, the greedy `[\s-]*` never needs backtracking: after the
maximal separator run the next token must be a digit, and stopping earlier
would leave a separator (never a digit) as the next character.  Hence this
deterministic maximal-munch scan is exactly the regex engine's behaviour. -/
def matchAt (l : List Char) : Option (List Char) :=
  match takeCount isDigitChar 2 l with
  | none => none
  | some (g1, r1) =>
    let s1 := r1.takeWhile isSepChar
    let r2 := r1.dropWhile isSepChar
    match takeCount isDigitChar 2 r2 with
    | none => none
    | some (g2, r3) =>
      let s2 := r3.takeWhile isSepChar
      let r4 := r3.dropWhile isSepChar
      match takeCount isDigitChar 4 r4 with
      | none => none
      | some (g3, _) => some (g1 ++ s1 ++ g2 ++ s2 ++ g3)

/-- Leftmost regex match: try `matchAt` at each successive start position. -/
def firstMatch : List Char → Option (List Char)
  | [] => none
  | c :: t =>
    match matchAt (c :: t) with
    | some m => some m
    | none => firstMatch t

/-- JS `replace(/[\s-]+/g, ' ')`: collapse each maximal nonempty run of
separator characters into a single space. -/
def normalizeSeps : List Char → List Char
  | [] => []
  | c :: t =>
    if isSepChar c then ' ' :: normalizeSeps (t.dropWhile isSepChar)
    else c :: normalizeSeps t
termination_by l => l.length
decreasing_by
  · have h := (List.dropWhile_sublist (l := t) (p := isSepChar)).length_le
    simp only [List.length_cons]
    omega
  · simp

/-- `extractSectionNumber` from `spec.service.ts`:
`ref.match(/(\d{2}[\s-]*\d{2}[\s-]*\d{4})/)` then
`match[1].replace(/[\s-]+/g, ' ')`. -/
def extractSectionNumber (ref : String) : Option String :=
  (firstMatch ref.data).map (fun m => ⟨normalizeSeps m⟩)

/-- `extractSectionTitle`: first line of `content` that is nonempty after
trimming, truncated to 100 characters. -/
def extractSectionTitle (content : String) : String :=
  match (content.splitOn "\n").filter (fun l => l.trim ≠ "") with
  | [] => ""
  | l :: _ => ⟨l.data.take 100⟩

/-- The static category → keyword table of `findMatchingSpecs`. -/
def typeKeywords (category : String) : List String :=
  if category = "ahu" then ["air handling unit", "ahu", "make-up air", "doas", "outdoor air"]
  else if category = "rtu" then ["rooftop unit", "rtu", "roof top", "packaged unit"]
  else if category = "chiller" then ["chiller", "chilled water", "chiller plant"]
  else if category = "cooling_tower" then ["cooling tower", "ct", "tower"]
  else if category = "boiler" then ["boiler", "heating plant", "hot water"]
  else if category = "pump" then ["pump", "pumps", "pumping"]
  else if category = "fan" then ["fan", "fans", "exhaust", "supply", "return"]
  else if category = "vav" then ["vav", "terminal unit", "variable air"]
  else if category = "heat_exchanger" then ["heat exchanger", "hx", "plate heat"]
  else if category = "tank" then ["tank", "storage"]
  else if category = "valve" then ["valve", "valves", "control valve"]
  else if category = "plumbing_fixtures" then ["water closet", "lavatory", "fixture", "toilet"]
  else if category = "water_heater" then ["water heater", "wh", "domestic water"]
  else if category = "motor" then ["motor", "motors", "drives"]
  else if category = "controller" then ["controller", "ddc", "bacnet", "building automation"]
  else if category = "sensor" then ["sensor", "transducer", "measurement"]
  else []

/-- JS `String.prototype.includes`: substring containment. -/
def containsSub (hay needle : List Char) : Bool :=
  match hay with
  | [] => needle.isEmpty
  | _ :: t => needle.isPrefixOf hay || containsSub t needle

/-- The `${spec.reference} ${spec.content}`.toLowerCase() scan text. -/
def specText (sp : SpecSection) : String :=
  toLowerS (sp.reference ++ " " ++ sp.content)

/-- `findMatchingSpecs`: sections whose scan text contains some keyword of
the equipment's category (the inner `for`/`break` is a `List.any`). -/
def findMatchingSpecs (eq : Equipment) (specs : List SpecSection) : List SpecSection :=
  specs.filter (fun sp =>
    (typeKeywords eq.category).any (fun kw => containsSub (specText sp).data kw.data))

/-- `correlateEquipmentToSpecs` from `spec.service.ts`. -/
def correlateEquipmentToSpecs (equipment : List Equipment)
    (specSections : List SpecSection) : List (String × String × List Equipment) :=
  let keyed := specSections.filterMap (fun sp =>
    (extractSectionNumber sp.reference).map (fun n => (n, sp)))
  let seeded := (dedupFirst (keyed.map (fun p => p.1))).map (fun n =>
    match keyed.foldl (fun acc p => if p.1 = n then some p.2 else acc) none with
    | some sp => (n, extractSectionTitle sp.content)
    | none => (n, ""))
  let buckets := seeded.map (fun s =>
    (s.1, s.2, equipment.filter (fun eq =>
      (findMatchingSpecs eq specSections).any (fun sp =>
        extractSectionNumber sp.reference = some s.1))))
  (buckets.filter (fun b => b.2.2 ≠ [])).mergeSort
    (fun a b => a.1.data ≤ b.1.data)

def severityOrder : GapSeverity → Nat
  | .high => 0
  | .medium => 1
  | .low => 2

/-- The two gap rules evaluated inside the second `for` loop of
`findSpecGaps` (missing sizing, then low confidence), in push order. -/
def perEquipmentGaps (eq : Equipment) : List SpecGap :=
  (if eq.sizes = [] ∧ eq.confidence < 7/10 then
    [{ equipmentTag := eq.tag
       equipmentType := eq.type
       issue := "No sizing information extracted"
       severity := .high
       suggestion := some "Verify size in drawings or specs" }]
  else [])
  ++ (if eq.confidence < 1/2 then
    [{ equipmentTag := eq.tag
       equipmentType := eq.type
       issue := "Low confidence extraction (" ++ jsToFixed0 (eq.confidence * 100) ++ "%)"
       severity := .high
       suggestion := some "Manual review recommended" }]
  else [])

/-- `findSpecGaps` from `spec.service.ts`: the no-spec rule (keyed on the
set of tags that have a nonempty `specs_references`), then the per-equipment
rules, then a stable sort by severity rank. -/
def findSpecGaps (equipment : List Equipment)
    (specSections : List SpecSection) : List SpecGap :=
  let equipmentWithSpecs :=
    (equipment.filter (fun eq => eq.specs_references ≠ [])).map Equipment.tag
  let noSpecGaps := equipment.filterMap (fun eq =>
    if eq.tag ∈ equipmentWithSpecs then none
    else if findMatchingSpecs eq specSections = [] then
      some { equipmentTag := eq.tag
             equipmentType := eq.type
             issue := "No matching spec section found"
             severity := if eq.confidence < 1/2 then .medium else .low
             suggestion := some ("Create spec section for " ++ eq.type) }
    else none)
  let gaps := noSpecGaps ++ equipment.flatMap perEquipmentGaps
  gaps.mergeSort (fun a b => severityOrder a.severity ≤ severityOrder b.severity)

/-- JS `str.replace(a, b)` with single-character string arguments: replaces
only the first occurrence. -/
def replaceFirst (a b : Char) : List Char → List Char
  | [] => []
  | c :: t => if c = a then b :: t else c :: replaceFirst a b t

/-- `category.toUpperCase().replace('_', ' ')` in the checklist header. -/
def displayCategory (cat : String) : String :=
  ⟨replaceFirst '_' ' ' (toUpperS cat).data⟩

/-- The ✅ / ⚠️ / ❌ confidence marker of the checklist. -/
def confidenceMarker (c : ℚ) : String :=
  if 4/5 ≤ c then "✅" else if 1/2 ≤ c then "⚠️" else "❌"

/-- The lines pushed for one equipment record in the category section. -/
def equipmentLines (eq : Equipment) : List String :=
  ["- " ++ confidenceMarker eq.confidence ++ " **" ++ eq.tag ++ "** - " ++ eq.type]
  ++ (if eq.sizes ≠ [] then
        ["  - Sizes: " ++ String.intercalate ", " (eq.sizes.map SizeEntry.value)]
      else [])
  ++ (if eq.specs_references ≠ [] then
        ["  - Specs: " ++ String.intercalate ", " eq.specs_references]
      else [])

/-- One `### CATEGORY (n)` section of the checklist.  The JS `byCategory`
map groups records by category in key-insertion order with values in input
order, which is exactly `filter` per category in `dedupFirst` order. -/
def categorySection (equipment : List Equipment) (cat : String) : List String :=
  let items := equipment.filter (fun e => e.category = cat)
  ("### " ++ displayCategory cat ++ " (" ++ toString items.length ++ ")")
    :: items.flatMap equipmentLines
    ++ [""]

def gapLines (g : SpecGap) : List String :=
  ("- **" ++ g.equipmentTag ++ "** - " ++ g.issue)
    :: (match g.suggestion with
        | some s => ["  - Suggestion: " ++ s]
        | none => [])

def severityLabel : GapSeverity → String
  | .high => "HIGH"
  | .medium => "MEDIUM"
  | .low => "LOW"

/-- One `### SEVERITY Priority (n)` block of the issues section. -/
def severitySection (gaps : List SpecGap) (sev : GapSeverity) : List String :=
  let items := gaps.filter (fun g => g.severity = sev)
  if items ≠ [] then
    ("### " ++ severityLabel sev ++ " Priority (" ++ toString items.length ++ ")")
      :: items.flatMap gapLines
      ++ [""]
  else []

/-- `generateComplianceChecklist` from `spec.service.ts`.  The call
`new Date().toISOString()` reads the ambient clock; it is made explicit as
the `now` argument, so the embedding is the function of
(equipment, specSections, clock value). -/
def generateComplianceChecklist (equipment : List Equipment)
    (specSections : List SpecSection) (now : String) : String :=
  let categories := dedupFirst (equipment.map Equipment.category)
  let gaps := findSpecGaps equipment specSections
  let lines :=
    ["# Compliance Checklist\n",
     "**Generated:** " ++ now ++ "\n",
     "**Equipment Count:** " ++ toString equipment.length ++ "\n",
     "## Equipment by Category\n"]
    ++ categories.flatMap (categorySection equipment)
    ++ (if gaps ≠ [] then
          ("## Issues Found (" ++ toString gaps.length ++ ")\n")
            :: [GapSeverity.high, GapSeverity.medium, GapSeverity.low].flatMap
                (severitySection gaps)
        else [])
  joinLines lines

/-! ## Equivalency service (`equivalency.service.ts`) -/

/-- A JS value stored in a `specifications` entry or produced by
`parseFloat`: a number, the float `NaN`, or (in the static catalog) a plain
string such as `"vertical"`. -/
inductive JSVal
  | nan
  | num (q : ℚ)
  | str (s : String)
deriving DecidableEq

inductive DiffSeverity
  | critical
  | minor
  | improvement
deriving DecidableEq

structure EquipmentSpec where
  name : String
  value : JSVal
  unit : String
deriving DecidableEq

structure ManufacturerEquipment where
  id : String
  manufacturer : String
  model : String
  category : String
  specifications : List EquipmentSpec
  listPrice : Option ℚ
  warranty : Option String
  efficiencyRating : Option String
deriving DecidableEq

structure SpecDifference where
  specName : String
  originalValue : String
  matchedValue : String
  isBetter : Bool
  severity : DiffSeverity
  description : String
deriving DecidableEq

structure EquivalencyMatch where
  originalEquipment : Equipment
  matchedEquipment : ManufacturerEquipment
  matchScore : ℚ
  differences : List SpecDifference
  isEquivalent : Bool
deriving DecidableEq

/-- The report of `findEquivalencies`.  The source field `matches` is named
`matchList` here because `matches` is reserved syntax in Lean. -/
structure EquivalencyReport where
  originalTag : String
  category : String
  matchList : List EquivalencyMatch
  bestMatch : Option EquivalencyMatch
  totalMatches : Nat
  summary : String
deriving DecidableEq

/-- JS `Math.max` on (non-`NaN`) numbers. -/
def jsMax (a b : ℚ) : ℚ := if a ≤ b then b else a

/-- JS `Math.min` on (non-`NaN`) numbers. -/
def jsMin (a b : ℚ) : ℚ := if a ≤ b then a else b

/-- JS strict equality `===` on the values that occur here (`NaN === x` is
always false; a number never equals a string). -/
def jsStrictEq : JSVal → JSVal → Bool
  | .num a, .num b => a = b
  | .str a, .str b => a = b
  | _, _ => false

/-- JS `spec.value > originalValue` where `originalValue` is a number or
`NaN`: true only for two numbers with the first strictly greater (every
comparison involving `NaN` or a non-numeric string coerced to `NaN` is
false). -/
def jsGtNum : JSVal → JSVal → Bool
  | .num c, .num o => o < c
  | _, _ => false

/-- JS `Math.abs(o - c) / o < bound`.  With `o = 0` (and `c ≠ o`, the only
way this is reached) the quotient is `+Infinity`, so the comparison is
false; `NaN` operands also compare false. -/
def percentDiffLt (orig cand : JSVal) (bound : ℚ) : Bool :=
  match orig, cand with
  | .num o, .num c => if o = 0 then false else |o - c| / o < bound
  | _, _ => false

/-- JS `Math.abs(o - c) / o > bound`.  With `o = 0` and `c ≠ 0` the quotient
is `+Infinity`, greater than any rational bound; with `o = 0 = c` it is
`NaN`, comparing false; `NaN` operands compare false. -/
def percentDiffGt (orig cand : JSVal) (bound : ℚ) : Bool :=
  match orig, cand with
  | .num o, .num c =>
      if o = 0 then (if c = 0 then false else true)
      else bound < |o - c| / o
  | _, _ => false

/-- JS number/value-to-string interpolation.  Integral numbers render
exactly as in JS; non-integral rationals are rendered as `num/den`, a
modelling approximation of float printing (no theorem below depends on the
rendering of a non-integral value). -/
def jsValToString : JSVal → String
  | .nan => "NaN"
  | .str s => s
  | .num q => if q.den = 1 then toString q.num else toString q.num ++ "/" ++ toString q.den

/-- `_parseNumericValue`'s regex `/([\d,.]+)/` character class. -/
def isNumChar (c : Char) : Bool := c.isDigit || c = ',' || c = '.'

/-- Leftmost maximal run of `[\d,.]` characters (the regex match), if any. -/
def firstNumToken : List Char → Option (List Char)
  | [] => none
  | c :: t =>
      if isNumChar c then some ((c :: t).takeWhile isNumChar)
      else firstNumToken t

def digitsToNat (ds : List Char) : Nat :=
  ds.foldl (fun n c => n * 10 + (c.toNat - '0'.toNat)) 0

/-- JS `parseFloat` on a string of digits and dots (commas already
stripped): parse `digits [ '.' digits ]` at the front; if no digit is read,
the result is `NaN`. -/
def parseFloatNum (cs : List Char) : JSVal :=
  let intPart := cs.takeWhile isDigitChar
  let rest := cs.dropWhile isDigitChar
  let fracPart :=
    if rest.head? = some '.' then (rest.drop 1).takeWhile isDigitChar else []
  if intPart.isEmpty && fracPart.isEmpty then .nan
  else .num ((digitsToNat intPart : ℚ)
    + (digitsToNat fracPart : ℚ) / (10 ^ fracPart.length : ℚ))

/-- `_parseNumericValue`: regex match, strip commas, `parseFloat`.  Returns
`none` only when the regex finds no `[\d,.]` run at all; a run without any
digit yields `some JSVal.nan`, exactly as `parseFloat` does. -/
def parseNumericValue (value : String) : Option JSVal :=
  match firstNumToken value.data with
  | none => none
  | some tok => some (parseFloatNum (tok.filter (fun c => c ≠ ',')))

/-- `_parseSpecs`: the `Map` from lower-cased dimension name to parsed
value, as an entry list (lookup is last-entry-wins, matching `Map.set`
overwrites). -/
def parseSpecs (equipment : Equipment) : List (String × JSVal) :=
  equipment.sizes.filterMap (fun s =>
    (parseNumericValue s.value).map (fun v => (toLowerS s.type, v)))

/-- `Map.prototype.get` over the entry list (last entry wins). -/
def specLookup (specs : List (String × JSVal)) (name : String) : Option JSVal :=
  specs.foldl (fun acc p => if p.1 = name then some p.2 else acc) none

/-- `_getTolerance`. -/
def getTolerance (specName : String) : ℚ :=
  let n := toLowerS specName
  if n = "capacity" then 1/10
  else if n = "cooling" then 1/10
  else if n = "heating" then 1/10
  else if n = "motor" then 3/20
  else if n = "voltage" then 1/20
  else if n = "efficiency" then 1/20
  else 1/10

/-- `_isCritical`. -/
def isCriticalSpec (specName : String) : Bool :=
  toLowerS specName ∈ (["cooling", "capacity", "voltage", "motor"] : List String)

/-- JS `name.charAt(0).toUpperCase() + name.slice(1)`. -/
def capitalizeFirst (s : String) : String :=
  match s.data with
  | [] => ""
  | c :: t => ⟨c.toUpper :: t⟩

/-- The `descriptions[name] || default` table of `_compareSpec` (keys are
matched against the raw `name`). -/
def specDescription (name o m u : String) : String :=
  if name = "capacity" ∨ name = "cooling" ∨ name = "heating"
      ∨ name = "motor" ∨ name = "voltage" then
    o ++ " → " ++ m ++ " " ++ u
  else if name = "efficiency" then o ++ " → " ++ m
  else o ++ " → " ++ m

/-- `_compareSpec`: builds the difference record; severity is `critical`
exactly when `percentDiff > tolerance * 2`, otherwise `minor` (the
`improvement` variant is never assigned here). -/
def compareSpec (name : String) (original matched : JSVal) (unit : String) :
    SpecDifference :=
  let tolerance := getTolerance name
  { specName := capitalizeFirst name
    originalValue := jsValToString original ++ " " ++ unit
    matchedValue := jsValToString matched ++ " " ++ unit
    isBetter := false
    severity :=
      if percentDiffGt original matched (tolerance * 2) then .critical else .minor
    description := specDescription name (jsValToString original) (jsValToString matched) unit }

structure MatchState where
  differences : List SpecDifference
  score : ℚ
  matchedCount : Nat
deriving DecidableEq

/-- The body of the `for (const spec of candidate.specifications)` loop of
`_calculateMatch`.  The JS code pushes the difference object and then
mutates its `isBetter`/`severity` fields in place; the pushed record here is
the post-mutation value. -/
def scoreStep (specs : List (String × JSVal)) (st : MatchState)
    (spec : EquipmentSpec) : MatchState :=
  match specLookup specs (toLowerS spec.name) with
  | none => st
  | some originalValue =>
    let diff := compareSpec spec.name originalValue spec.value spec.unit
    if jsStrictEq originalValue spec.value then
      { differences := st.differences ++ [diff]
        score := st.score + 15/100
        matchedCount := st.matchedCount + 1 }
    else
      let tolerance := getTolerance spec.name
      if percentDiffLt originalValue spec.value tolerance then
        { differences := st.differences ++ [{ diff with isBetter := jsGtNum spec.value originalValue }]
          score := st.score + 1/10
          matchedCount := st.matchedCount + 1 }
      else if percentDiffLt originalValue spec.value (tolerance * 2) then
        { differences := st.differences ++ [{ diff with isBetter := jsGtNum spec.value originalValue }]
          score := st.score + 1/20
          matchedCount := st.matchedCount + 1 }
      else
        { differences := st.differences ++ [{ diff with isBetter := false, severity := .critical }]
          score := st.score - 1/10
          matchedCount := st.matchedCount + 1 }

/-- `_calculateMatch` from `equivalency.service.ts`: base score `0.5`,
per-field scoring, missing-critical penalty, efficiency bonus, clamp to
`[0,1]`, and the equivalence rule. -/
def calculateMatch (equipment : Equipment) (candidate : ManufacturerEquipment)
    (specs : List (String × JSVal)) : EquivalencyMatch :=
  let st := candidate.specifications.foldl (scoreStep specs) ⟨[], 1/2, 0⟩
  let criticalMissing := (candidate.specifications.filter (fun s =>
    isCriticalSpec s.name && (specLookup specs (toLowerS s.name)).isNone)).length
  let score1 := st.score - criticalMissing * (1/10)
  let score2 :=
    if candidate.efficiencyRating.isSome ∧ 7/10 < equipment.confidence then
      score1 + 1/20
    else score1
  let score := jsMax 0 (jsMin 1 score2)
  let criticalDiffs :=
    (st.differences.filter (fun d => d.severity = DiffSeverity.critical)).length
  { originalEquipment := equipment
    matchedEquipment := candidate
    matchScore := score
    differences := st.differences
    isEquivalent := criticalDiffs = 0 ∧ 2 ≤ st.matchedCount }

/-- The static `MANUFACTURER_DATABASE` of `equivalency.service.ts`.  The
catalog entries `configuration`/`refrigerant` hold plain strings in their
(number-typed) `value` field; they are embedded as `JSVal.str`. -/
def MANUFACTURER_DATABASE : List ManufacturerEquipment :=
  [{ id := "trane-fc-001", manufacturer := "Trane", model := "Climatuff FC",
     category := "fan_coil",
     specifications :=
       [⟨"capacity", .num 2000, "CFM"⟩, ⟨"cooling", .num 2, "tons"⟩,
        ⟨"voltage", .num 208, "V"⟩, ⟨"configuration", .str "vertical", "type"⟩],
     listPrice := some 2500, warranty := none, efficiencyRating := some "13 SEER" },
   { id := "daikin-dfcf-001", manufacturer := "Daikin", model := "Vinex II FC",
     category := "fan_coil",
     specifications :=
       [⟨"capacity", .num 2000, "CFM"⟩, ⟨"cooling", .num 2, "tons"⟩,
        ⟨"voltage", .num 208, "V"⟩, ⟨"configuration", .str "vertical", "type"⟩],
     listPrice := some 2350, warranty := none, efficiencyRating := some "14 SEER2" },
   { id := "carrier-fc-001", manufacturer := "Carrier", model := "AquaEdge FC",
     category := "fan_coil",
     specifications :=
       [⟨"capacity", .num 2000, "CFM"⟩, ⟨"cooling", .num 2, "tons"⟩,
        ⟨"voltage", .num 230, "V"⟩, ⟨"configuration", .str "vertical", "type"⟩],
     listPrice := some 2450, warranty := none, efficiencyRating := some "13 SEER" },
   { id := "trane-ahu-001", manufacturer := "Trane", model := "Trace AHU",
     category := "ahu",
     specifications :=
       [⟨"capacity", .num 5000, "CFM"⟩, ⟨"cooling", .num 50, "tons"⟩,
        ⟨"heating", .num 500, "MBH"⟩, ⟨"voltage", .num 460, "V"⟩,
        ⟨"motor", .num 15, "HP"⟩],
     listPrice := some 45000, warranty := none, efficiencyRating := none },
   { id := "daikin-ahu-001", manufacturer := "Daikin", model := "Magiksa AHU",
     category := "ahu",
     specifications :=
       [⟨"capacity", .num 5000, "CFM"⟩, ⟨"cooling", .num 48, "tons"⟩,
        ⟨"heating", .num 480, "MBH"⟩, ⟨"voltage", .num 460, "V"⟩,
        ⟨"motor", .num 15, "HP"⟩],
     listPrice := some 42000, warranty := none, efficiencyRating := none },
   { id := "iec-ahu-001", manufacturer := "IEC", model := "Innovative AHU",
     category := "ahu",
     specifications :=
       [⟨"capacity", .num 5200, "CFM"⟩, ⟨"cooling", .num 50, "tons"⟩,
        ⟨"heating", .num 500, "MBH"⟩, ⟨"voltage", .num 460, "V"⟩,
        ⟨"motor", .num 15, "HP"⟩],
     listPrice := some 38000, warranty := none, efficiencyRating := none },
   { id := "trane-chiller-001", manufacturer := "Trane", model := "AquaGenie CVHE",
     category := "chiller",
     specifications :=
       [⟨"cooling", .num 100, "tons"⟩, ⟨"efficiency", .num (1/2), "kW/ton"⟩,
        ⟨"voltage", .num 460, "V"⟩, ⟨"refrigerant", .str "R-1233zd", "type"⟩],
     listPrice := some 120000, warranty := none, efficiencyRating := none },
   { id := "carrier-chiller-001", manufacturer := "Carrier", model := "AquaEdge 23XRV",
     category := "chiller",
     specifications :=
       [⟨"cooling", .num 100, "tons"⟩, ⟨"efficiency", .num (12/25), "kW/ton"⟩,
        ⟨"voltage", .num 460, "V"⟩, ⟨"refrigerant", .str "R-1233zd", "type"⟩],
     listPrice := some 115000, warranty := none, efficiencyRating := none },
   { id := "trane-rtu-001", manufacturer := "Trane", model := "IntelliPak RTU",
     category := "rtu",
     specifications :=
       [⟨"cooling", .num 25, "tons"⟩, ⟨"heating", .num 400, "MBH"⟩,
        ⟨"voltage", .num 460, "V"⟩, ⟨"efficiency", .num 13, "SEER"⟩],
     listPrice := some 35000, warranty := none, efficiencyRating := none },
   { id := "daikin-rtu-001", manufacturer := "Daikin", model := "Pathfinder RTU",
     category := "rtu",
     specifications :=
       [⟨"cooling", .num 25, "tons"⟩, ⟨"heating", .num 400, "MBH"⟩,
        ⟨"voltage", .num 460, "V"⟩, ⟨"efficiency", .num 14, "SEER2"⟩],
     listPrice := some 33500, warranty := none, efficiencyRating := none },
   { id := "lennox-rtu-001", manufacturer := "Lennox", model := "Strategos RTU",
     category := "rtu",
     specifications :=
       [⟨"cooling", .num 25, "tons"⟩, ⟨"heating", .num 400, "MBH"⟩,
        ⟨"voltage", .num 460, "V"⟩, ⟨"efficiency", .num (27/2), "SEER2"⟩],
     listPrice := some 32000, warranty := none, efficiencyRating := none }]

/-- The static `CATEGORY_MAP` (entries in source order). -/
def CATEGORY_MAP : List (String × List String) :=
  [("ahu", ["ahu", "air_handling_unit"]),
   ("rtu", ["rtu", "rooftop_unit", "rooftop"]),
   ("chiller", ["chiller", "chilled_water"]),
   ("fan_coil", ["fan_coil", "fc", "fcu"]),
   ("vav", ["vav", "vav_box", "terminal_unit"]),
   ("pump", ["pump", "pumps"]),
   ("boiler", ["boiler", "heating"]),
   ("cooling_tower", ["cooling_tower", "ct", "tower"])]

/-- `_mapCategory`: lowercase, replace the first space by an underscore,
then scan `CATEGORY_MAP` in order for an alias hit or a substring hit on the
key; fall through to the original category. -/
def mapCategory (category : String) : String :=
  let normalized : String := ⟨replaceFirst ' ' '_' (toLowerS category).data⟩
  match CATEGORY_MAP.find? (fun p =>
    normalized ∈ p.2 || containsSub normalized.data p.1.data) with
  | some p => p.1
  | none => category

/-- `_generateSummary` (the constructor lowercases `myManufacturers`). -/
def generateSummary (myManufacturers : List String) (equipment : Equipment)
    (matchList : List EquivalencyMatch) : String :=
  match matchList.head? with
  | none => "No equivalent equipment found for " ++ equipment.tag
  | some best =>
    let isMyCompany :=
      toLowerS best.matchedEquipment.manufacturer ∈ myManufacturers.map toLowerS
    "Found " ++ toString matchList.length ++ " potential equivalent(s) for "
      ++ equipment.tag ++ ". "
      ++ (if isMyCompany then
            "🎯 " ++ best.matchedEquipment.manufacturer ++ " "
              ++ best.matchedEquipment.model ++ " is your product! "
          else "")
      ++ (if best.isEquivalent then
            "Direct equivalent with " ++ jsToFixed0 (best.matchScore * 100)
              ++ "% match score."
          else
            "Best match requires review of "
              ++ toString ((best.differences.filter
                    (fun d => d.severity = DiffSeverity.critical)).length)
              ++ " critical difference(s).")

/-- `findEquivalencies` from `equivalency.service.ts`.  `myManufacturers`
is the constructor argument (default `["Daikin", "IEC"]`);
`targetManufacturers` is the optional allow-list (`none` or `some []` mean
no filtering, matching the JS `targetManufacturers && length > 0` guard).
The stable JS sort by descending score is `mergeSort` with `b.score ≤
a.score`. -/
def findEquivalencies (myManufacturers : List String) (equipment : Equipment)
    (targetManufacturers : Option (List String)) : EquivalencyReport :=
  let category := mapCategory equipment.category
  let specs := parseSpecs equipment
  let candidates := MANUFACTURER_DATABASE.filter
    (fun c : ManufacturerEquipment => c.category = category)
  let candidates :=
    match targetManufacturers with
    | some targets =>
        if targets ≠ [] then
          candidates.filter (fun c : ManufacturerEquipment =>
            toLowerS c.manufacturer ∈ targets.map toLowerS)
        else candidates
    | none => candidates
  let matchList :=
    ((candidates.map (fun candidate => calculateMatch equipment candidate specs)).filter
        (fun m : EquivalencyMatch => 3/10 < m.matchScore)).mergeSort
      (fun a b => b.matchScore ≤ a.matchScore)
  { originalTag := equipment.tag
    category := category
    matchList := matchList
    bestMatch := matchList.head?
    totalMatches := matchList.length
    summary := generateSummary myManufacturers equipment matchList }


/-! ## Helper lemmas -/

theorem mem_dedupFirst {a : String} {l : List String} : a ∈ dedupFirst l ↔ a ∈ l := by
  generalize hn : l.length = n
  induction n using Nat.strong_induction_on generalizing l with
  | _ n ih =>
    cases l with
    | nil => simp [dedupFirst]
    | cons b t =>
      rw [dedupFirst]
      by_cases hab : a = b
      · simp [hab]
      · have hlen : (t.filter (fun x => x ≠ b)).length < n := by
          have := List.length_filter_le (fun x => x ≠ b) t
          simp only [List.length_cons] at hn
          omega
        have hmem := ih _ hlen rfl
        rw [List.mem_cons, List.mem_cons, hmem, List.mem_filter]
        simp [hab]

theorem dedupFirst_nodup_eq {l : List String} (h : l.Nodup) : dedupFirst l = l := by
  induction l with
  | nil => simp [dedupFirst]
  | cons a t ih =>
    rw [dedupFirst]
    have ha : a ∉ t := (List.nodup_cons.mp h).1
    have ht : t.filter (fun x => x ≠ a) = t := by
      rw [List.filter_eq_self]
      intro x hx
      simp only [ne_eq, decide_eq_true_eq]
      exact fun hxa => ha (hxa ▸ hx)
    rw [ht, ih (List.nodup_cons.mp h).2]

theorem dedupFirst_append_of_subset {xs ys : List String}
    (hsub : ∀ y ∈ ys, y ∈ xs) : dedupFirst (xs ++ ys) = dedupFirst xs := by
  generalize hn : xs.length = n
  induction n using Nat.strong_induction_on generalizing xs ys with
  | _ n ih =>
    cases xs with
    | nil =>
      have : ys = [] := List.eq_nil_iff_forall_not_mem.mpr (fun y hy => by
        simpa using hsub y hy)
      simp [this]
    | cons a t =>
      rw [List.cons_append, dedupFirst, dedupFirst, List.filter_append]
      congr 1
      have hlen : (t.filter (fun x => x ≠ a)).length < n := by
        have := List.length_filter_le (fun x => x ≠ a) t
        simp only [List.length_cons] at hn
        omega
      have hsub2 : ∀ y ∈ ys.filter (fun x => x ≠ a), y ∈ t.filter (fun x => x ≠ a) := by
        intro y hy
        rw [List.mem_filter] at hy ⊢
        refine ⟨?_, hy.2⟩
        rcases List.mem_cons.mp (hsub y hy.1) with rfl | h'
        · have hyy : y ≠ y := by simpa using hy.2
          exact absurd rfl hyy
        · exact h'
      exact ih _ hlen hsub2 rfl

theorem lookupTag_go_some {l : List Equipment} {t : String} {init : Option Equipment}
    {e : Equipment}
    (h : l.foldl (fun acc x => if tagKey x = t then some x else acc) init = some e) :
    (e ∈ l ∧ tagKey e = t) ∨ init = some e := by
  induction l generalizing init with
  | nil => exact Or.inr h
  | cons x xs ih =>
    rw [List.foldl_cons] at h
    rcases ih h with ⟨hm, hk⟩ | hinit
    · exact Or.inl ⟨List.mem_cons_of_mem _ hm, hk⟩
    · by_cases hx : tagKey x = t
      · rw [if_pos hx] at hinit
        have hex : x = e := Option.some.inj hinit
        exact Or.inl ⟨hex ▸ List.mem_cons_self x xs, hex ▸ hx⟩
      · rw [if_neg hx] at hinit
        exact Or.inr hinit

theorem lookupTag_some {l : List Equipment} {t : String} {e : Equipment}
    (h : lookupTag l t = some e) : e ∈ l ∧ tagKey e = t := by
  rcases lookupTag_go_some h with h' | h'
  · exact h'
  · exact absurd h' (by simp)

theorem lookupTag_go_isSome {l : List Equipment} {t : String} {init : Option Equipment} :
    (l.foldl (fun acc x => if tagKey x = t then some x else acc) init).isSome
      ↔ init.isSome ∨ ∃ e ∈ l, tagKey e = t := by
  induction l generalizing init with
  | nil => simp
  | cons x xs ih =>
    rw [List.foldl_cons]
    by_cases hx : tagKey x = t
    · rw [if_pos hx, ih]
      constructor
      · intro _
        exact Or.inr ⟨x, List.mem_cons_self x xs, hx⟩
      · intro _
        exact Or.inl (by simp)
    · rw [if_neg hx, ih]
      constructor
      · rintro (h | ⟨e, he, hk⟩)
        · exact Or.inl h
        · exact Or.inr ⟨e, List.mem_cons_of_mem _ he, hk⟩
      · rintro (h | ⟨e, he, hk⟩)
        · exact Or.inl h
        · rcases List.mem_cons.mp he with rfl | he'
          · exact absurd hk hx
          · exact Or.inr ⟨e, he', hk⟩

theorem lookupTag_isSome {l : List Equipment} {t : String} :
    (lookupTag l t).isSome ↔ ∃ e ∈ l, tagKey e = t := by
  have h := @lookupTag_go_isSome l t none
  simpa [lookupTag] using h

theorem lookupTag_isSome_iff_mem_map {l : List Equipment} {t : String} :
    (lookupTag l t).isSome ↔ t ∈ l.map tagKey := by
  rw [lookupTag_isSome, List.mem_map]

theorem length_filterMap_of_all_some {α β : Type} {l : List α} {f : α → Option β}
    (h : ∀ a ∈ l, (f a).isSome) : (l.filterMap f).length = l.length := by
  induction l with
  | nil => rfl
  | cons a t ih =>
    rcases Option.isSome_iff_exists.mp (h a (List.mem_cons_self a t)) with ⟨b, hb⟩
    rw [List.filterMap_cons, hb, List.length_cons,
      ih (fun x hx => h x (List.mem_cons_of_mem _ hx)), List.length_cons]

/-! ## Claims about the equivalency engine -/

/-- The number of candidate specification fields for which the equipment has
an entry in its parsed spec map — the quantity accumulated in the
`matchedCount` loop variable of `_calculateMatch`. -/
def matchedFields (candidate : ManufacturerEquipment)
    (specs : List (String × JSVal)) : Nat :=
  (candidate.specifications.filter
    (fun s => (specLookup specs (toLowerS s.name)).isSome)).length

theorem scoreStep_matchedCount_of_some {specs : List (String × JSVal)}
    {st : MatchState} {s : EquipmentSpec} {v : JSVal}
    (h : specLookup specs (toLowerS s.name) = some v) :
    (scoreStep specs st s).matchedCount = st.matchedCount + 1 := by
  rw [scoreStep.eq_def, h]
  dsimp only
  split
  · rfl
  · split
    · rfl
    · split <;> rfl

theorem foldl_scoreStep_matchedCount (specs : List (String × JSVal)) :
    ∀ (l : List EquipmentSpec) (st : MatchState),
      (l.foldl (scoreStep specs) st).matchedCount
        = st.matchedCount
          + (l.filter (fun s => (specLookup specs (toLowerS s.name)).isSome)).length := by
  intro l
  induction l with
  | nil => simp
  | cons s t ih =>
    intro st
    rw [List.foldl_cons, ih, List.filter_cons]
    cases h : specLookup specs (toLowerS s.name) with
    | none =>
      have hstep : scoreStep specs st s = st := by
        rw [scoreStep.eq_def, h]
      simp [hstep, h]
    | some v =>
      have hstep := @scoreStep_matchedCount_of_some specs st s v h
      simp only [h, Option.isSome_some, if_pos, List.length_cons, hstep]
      omega

theorem calculateMatch_isEquivalent_iff (equipment : Equipment)
    (candidate : ManufacturerEquipment) (specs : List (String × JSVal)) :
    (calculateMatch equipment candidate specs).isEquivalent = true ↔
      (((calculateMatch equipment candidate specs).differences.filter
          (fun d => d.severity = DiffSeverity.critical)).length = 0
        ∧ 2 ≤ matchedFields candidate specs) := by
  unfold calculateMatch
  dsimp only
  rw [matchedFields, decide_eq_true_iff, foldl_scoreStep_matchedCount]
  simp

/-- C1: for every equipment record and every catalog candidate, a match
produced by `findEquivalencies` has `isEquivalent = true` iff its
differences list has zero critical-severity entries and at least 2 of the
candidate's specification fields have a parsed numeric value on the
equipment side. -/
theorem isEquivalent_iff_no_critical_and_two_matched
    (myManufacturers : List String) (equipment : Equipment)
    (targets : Option (List String)) (m : EquivalencyMatch)
    (hm : m ∈ (findEquivalencies myManufacturers equipment targets).matchList) :
    m.isEquivalent = true ↔
      ((m.differences.filter (fun d => d.severity = DiffSeverity.critical)).length = 0
        ∧ 2 ≤ matchedFields m.matchedEquipment (parseSpecs equipment)) := by
  unfold findEquivalencies at hm
  simp only [List.mem_mergeSort, List.mem_filter, List.mem_map] at hm
  obtain ⟨⟨c, _, rfl⟩, _⟩ := hm
  exact calculateMatch_isEquivalent_iff equipment c (parseSpecs equipment)

/-- A concrete chiller record used to witness the equivalency theorems. -/
def chillerSample : Equipment :=
  ⟨"CH-1", "Chiller", "chiller", [⟨"cooling", "100 tons"⟩], [], "", 0, 1⟩

/-- The match that `findEquivalencies` produces for `chillerSample` against
the Carrier chiller of the static catalog. -/
def chillerSampleMatch : EquivalencyMatch :=
  calculateMatch chillerSample (MANUFACTURER_DATABASE.get ⟨7, by decide⟩)
    (parseSpecs chillerSample)

theorem isEquivalent_iff_no_critical_and_two_matched_witness :
    chillerSampleMatch.isEquivalent = true ↔
      ((chillerSampleMatch.differences.filter
          (fun d => d.severity = DiffSeverity.critical)).length = 0
        ∧ 2 ≤ matchedFields chillerSampleMatch.matchedEquipment (parseSpecs chillerSample)) :=
  isEquivalent_iff_no_critical_and_two_matched ["Daikin", "IEC"] chillerSample
    (some ["Carrier"]) chillerSampleMatch (by
      have h : (findEquivalencies ["Daikin", "IEC"] chillerSample
          (some ["Carrier"])).matchList = [chillerSampleMatch] := by
        with_unfolding_all rfl
      rw [h]
      exact List.mem_singleton_self _)

theorem jsMax_jsMin_bounds (s : ℚ) :
    0 ≤ jsMax 0 (jsMin 1 s) ∧ jsMax 0 (jsMin 1 s) ≤ 1 := by
  unfold jsMax jsMin
  split_ifs <;> constructor <;> linarith

/-- C2: the final match score of `_calculateMatch` is clamped to `[0, 1]`
for every equipment/candidate pair and every parsed spec map, however the
bonuses and penalties accumulate. -/
theorem matchScore_bounds (equipment : Equipment)
    (candidate : ManufacturerEquipment) (specs : List (String × JSVal)) :
    0 ≤ (calculateMatch equipment candidate specs).matchScore
      ∧ (calculateMatch equipment candidate specs).matchScore ≤ 1 := by
  unfold calculateMatch
  exact jsMax_jsMin_bounds _

/-- C4 failing input: a size whose `valueText` is `"N.A."` (no digits). -/
def naSample : Equipment :=
  ⟨"FC-1", "Fan Coil", "fan_coil", [⟨"cooling", "N.A."⟩], [], "", 1, 1⟩

def naCandidate : ManufacturerEquipment :=
  ⟨"x-fc-001", "Acme", "M1", "fan_coil", [⟨"cooling", .num 2, "tons"⟩],
    none, none, none⟩

/-- C4: contrary to the claim, a `valueText` with no numeric magnitude is
not always skipped.  `"N.A."` matches the regex `[\d,.]+` at its first `"."`
and `parseFloat(".")` is `NaN`, which is stored in the parsed map; the `NaN`
entry then counts as a matched field and forces a critical difference and a
`-0.1` score contribution (final score `0.4` from the `0.5` base). -/
theorem nan_size_enters_spec_map :
    parseNumericValue "N.A." = some JSVal.nan
      ∧ parseSpecs naSample = [("cooling", JSVal.nan)]
      ∧ (calculateMatch naSample naCandidate (parseSpecs naSample)).differences.map
          SpecDifference.severity = [DiffSeverity.critical]
      ∧ (calculateMatch naSample naCandidate (parseSpecs naSample)).matchScore = 2/5 := by
  refine ⟨rfl, rfl, rfl, ?_⟩
  with_unfolding_all rfl

/-! ## Claims about the revision diff engine -/

theorem mem_allTags {A B : List Equipment} {t : String} :
    t ∈ allTags A B ↔ t ∈ A.map tagKey ∨ t ∈ B.map tagKey := by
  rw [allTags, mem_dedupFirst, List.mem_append]

theorem mem_added_tags {A B : List Equipment} {t : String} :
    t ∈ (compareTakeoffs A B).added.map tagKey
      ↔ t ∈ allTags A B ∧ lookupTag A t = none ∧ (lookupTag B t).isSome := by
  unfold compareTakeoffs
  dsimp only
  rw [List.mem_map]
  constructor
  · rintro ⟨e, he, rfl⟩
    obtain ⟨t', ht', hf⟩ := List.mem_filterMap.mp he
    cases h1 : lookupTag A t' with
    | some e1 =>
      rw [h1] at hf
      cases h2 : lookupTag B t' <;> rw [h2] at hf <;> simp at hf
    | none =>
      cases h2 : lookupTag B t' with
      | none =>
        rw [h1, h2] at hf
        simp at hf
      | some e2 =>
        rw [h1, h2] at hf
        simp only [Option.some.injEq] at hf
        subst hf
        rw [(lookupTag_some h2).2]
        exact ⟨ht', h1, by rw [h2]; rfl⟩
  · rintro ⟨htags, h1, h2⟩
    obtain ⟨e, he⟩ := Option.isSome_iff_exists.mp h2
    refine ⟨e, ?_, (lookupTag_some he).2⟩
    exact List.mem_filterMap.mpr ⟨t, htags, by rw [h1, he]⟩

theorem mem_removed_tags {A B : List Equipment} {t : String} :
    t ∈ (compareTakeoffs A B).removed.map tagKey
      ↔ t ∈ allTags A B ∧ (lookupTag A t).isSome ∧ lookupTag B t = none := by
  unfold compareTakeoffs
  dsimp only
  rw [List.mem_map]
  constructor
  · rintro ⟨e, he, rfl⟩
    obtain ⟨t', ht', hf⟩ := List.mem_filterMap.mp he
    cases h1 : lookupTag A t' with
    | none =>
      rw [h1] at hf
      cases h2 : lookupTag B t' <;> rw [h2] at hf <;> simp at hf
    | some e1 =>
      cases h2 : lookupTag B t' with
      | some e2 =>
        rw [h1, h2] at hf
        simp at hf
      | none =>
        rw [h1, h2] at hf
        simp only [Option.some.injEq] at hf
        subst hf
        rw [(lookupTag_some h1).2]
        exact ⟨ht', by rw [h1]; rfl, h2⟩
  · rintro ⟨htags, h1, h2⟩
    obtain ⟨e, he⟩ := Option.isSome_iff_exists.mp h1
    refine ⟨e, ?_, (lookupTag_some he).2⟩
    exact List.mem_filterMap.mpr ⟨t, htags, by rw [h2, he]⟩

theorem mem_changed_tags {A B : List Equipment} {t : String} :
    t ∈ (compareTakeoffs A B).changed.map DeltaChange.tag
      ↔ t ∈ allTags A B ∧ ∃ e1 e2, lookupTag A t = some e1 ∧ lookupTag B t = some e2
          ∧ findDifferences e1 e2 ≠ [] := by
  unfold compareTakeoffs
  dsimp only
  rw [List.mem_map]
  constructor
  · rintro ⟨c, hc, rfl⟩
    obtain ⟨t', ht', hf⟩ := List.mem_filterMap.mp hc
    cases h1 : lookupTag A t' with
    | none =>
      rw [h1] at hf
      cases h2 : lookupTag B t' <;> rw [h2] at hf <;> simp at hf
    | some e1 =>
      cases h2 : lookupTag B t' with
      | none =>
        rw [h1, h2] at hf
        simp at hf
      | some e2 =>
        rw [h1, h2] at hf
        dsimp only at hf
        split at hf
        next hd =>
          obtain rfl := Option.some.inj hf
          exact ⟨ht', e1, e2, h1, h2, hd⟩
        next =>
          simp at hf
  · rintro ⟨htags, e1, e2, h1, h2, hd⟩
    refine ⟨⟨t, e1, e2, findDifferences e1 e2⟩, ?_, rfl⟩
    refine List.mem_filterMap.mpr ⟨t, htags, ?_⟩
    rw [h1, h2]
    dsimp only
    rw [if_pos hd]

theorem mem_unchanged_tags {A B : List Equipment} {t : String} :
    t ∈ (compareTakeoffs A B).unchanged.map tagKey
      ↔ t ∈ allTags A B ∧ ∃ e1 e2, lookupTag A t = some e1 ∧ lookupTag B t = some e2
          ∧ findDifferences e1 e2 = [] := by
  unfold compareTakeoffs
  dsimp only
  rw [List.mem_map]
  constructor
  · rintro ⟨e, he, rfl⟩
    obtain ⟨t', ht', hf⟩ := List.mem_filterMap.mp he
    cases h1 : lookupTag A t' with
    | none =>
      rw [h1] at hf
      cases h2 : lookupTag B t' <;> rw [h2] at hf <;> simp at hf
    | some e1 =>
      cases h2 : lookupTag B t' with
      | none =>
        rw [h1, h2] at hf
        simp at hf
      | some e2 =>
        rw [h1, h2] at hf
        dsimp only at hf
        split at hf
        next hd =>
          obtain rfl := Option.some.inj hf
          rw [(lookupTag_some h1).2]
          exact ⟨ht', e1, e2, h1, h2, hd⟩
        next =>
          simp at hf
  · rintro ⟨htags, e1, e2, h1, h2, hd⟩
    refine ⟨e1, ?_, (lookupTag_some h1).2⟩
    refine List.mem_filterMap.mpr ⟨t, htags, ?_⟩
    rw [h1, h2]
    dsimp only
    rw [if_pos hd]

/-- C3: for lists with internally unique (case-insensitive) tags, the diff
partitions the union of uppercased tags: the four tag sets cover
`tags(A) ∪ tags(B)`, `added` holds exactly the tags only in `B`, `removed`
exactly the tags only in `A`, `changed`/`unchanged` the tags in both, and
all four are pairwise disjoint. -/
theorem diff_partitions_tags (A B : List Equipment)
    (hA : (A.map tagKey).Nodup) (hB : (B.map tagKey).Nodup) :
    (∀ t, (t ∈ (compareTakeoffs A B).added.map tagKey
        ∨ t ∈ (compareTakeoffs A B).removed.map tagKey
        ∨ t ∈ (compareTakeoffs A B).changed.map DeltaChange.tag
        ∨ t ∈ (compareTakeoffs A B).unchanged.map tagKey)
      ↔ (t ∈ A.map tagKey ∨ t ∈ B.map tagKey))
    ∧ (∀ t, t ∈ (compareTakeoffs A B).added.map tagKey
        ↔ (t ∈ B.map tagKey ∧ t ∉ A.map tagKey))
    ∧ (∀ t, t ∈ (compareTakeoffs A B).removed.map tagKey
        ↔ (t ∈ A.map tagKey ∧ t ∉ B.map tagKey))
    ∧ (∀ t, (t ∈ (compareTakeoffs A B).changed.map DeltaChange.tag
          ∨ t ∈ (compareTakeoffs A B).unchanged.map tagKey)
        ↔ (t ∈ A.map tagKey ∧ t ∈ B.map tagKey))
    ∧ (∀ t, ¬(t ∈ (compareTakeoffs A B).added.map tagKey
        ∧ t ∈ (compareTakeoffs A B).removed.map tagKey))
    ∧ (∀ t, ¬(t ∈ (compareTakeoffs A B).added.map tagKey
        ∧ t ∈ (compareTakeoffs A B).changed.map DeltaChange.tag))
    ∧ (∀ t, ¬(t ∈ (compareTakeoffs A B).added.map tagKey
        ∧ t ∈ (compareTakeoffs A B).unchanged.map tagKey))
    ∧ (∀ t, ¬(t ∈ (compareTakeoffs A B).removed.map tagKey
        ∧ t ∈ (compareTakeoffs A B).changed.map DeltaChange.tag))
    ∧ (∀ t, ¬(t ∈ (compareTakeoffs A B).removed.map tagKey
        ∧ t ∈ (compareTakeoffs A B).unchanged.map tagKey))
    ∧ (∀ t, ¬(t ∈ (compareTakeoffs A B).changed.map DeltaChange.tag
        ∧ t ∈ (compareTakeoffs A B).unchanged.map tagKey)) := by
  have hAddIff : ∀ t, t ∈ (compareTakeoffs A B).added.map tagKey
      ↔ (t ∈ B.map tagKey ∧ t ∉ A.map tagKey) := by
    intro t
    rw [mem_added_tags, mem_allTags]
    constructor
    · rintro ⟨_, h1, h2⟩
      refine ⟨lookupTag_isSome_iff_mem_map.mp h2, fun hmem => ?_⟩
      have := lookupTag_isSome_iff_mem_map.mpr hmem
      rw [h1] at this
      simp at this
    · rintro ⟨hmemB, hmemA⟩
      refine ⟨Or.inr hmemB, ?_, lookupTag_isSome_iff_mem_map.mpr hmemB⟩
      cases hopt : lookupTag A t with
      | none => rfl
      | some e =>
        exact absurd (lookupTag_isSome_iff_mem_map.mp (by rw [hopt]; rfl)) hmemA
  have hRemIff : ∀ t, t ∈ (compareTakeoffs A B).removed.map tagKey
      ↔ (t ∈ A.map tagKey ∧ t ∉ B.map tagKey) := by
    intro t
    rw [mem_removed_tags, mem_allTags]
    constructor
    · rintro ⟨_, h1, h2⟩
      refine ⟨lookupTag_isSome_iff_mem_map.mp h1, fun hmem => ?_⟩
      have := lookupTag_isSome_iff_mem_map.mpr hmem
      rw [h2] at this
      simp at this
    · rintro ⟨hmemA, hmemB⟩
      refine ⟨Or.inl hmemA, lookupTag_isSome_iff_mem_map.mpr hmemA, ?_⟩
      cases hopt : lookupTag B t with
      | none => rfl
      | some e =>
        exact absurd (lookupTag_isSome_iff_mem_map.mp (by rw [hopt]; rfl)) hmemB
  have hChgBoth : ∀ t, t ∈ (compareTakeoffs A B).changed.map DeltaChange.tag
      → (t ∈ A.map tagKey ∧ t ∈ B.map tagKey) := by
    intro t ht
    obtain ⟨_, e1, e2, h1, h2, _⟩ := mem_changed_tags.mp ht
    exact ⟨lookupTag_isSome_iff_mem_map.mp (by rw [h1]; rfl),
      lookupTag_isSome_iff_mem_map.mp (by rw [h2]; rfl)⟩
  have hUncBoth : ∀ t, t ∈ (compareTakeoffs A B).unchanged.map tagKey
      → (t ∈ A.map tagKey ∧ t ∈ B.map tagKey) := by
    intro t ht
    obtain ⟨_, e1, e2, h1, h2, _⟩ := mem_unchanged_tags.mp ht
    exact ⟨lookupTag_isSome_iff_mem_map.mp (by rw [h1]; rfl),
      lookupTag_isSome_iff_mem_map.mp (by rw [h2]; rfl)⟩
  have hCUIff : ∀ t, (t ∈ (compareTakeoffs A B).changed.map DeltaChange.tag
        ∨ t ∈ (compareTakeoffs A B).unchanged.map tagKey)
      ↔ (t ∈ A.map tagKey ∧ t ∈ B.map tagKey) := by
    intro t
    constructor
    · rintro (h | h)
      · exact hChgBoth t h
      · exact hUncBoth t h
    · rintro ⟨hmemA, hmemB⟩
      obtain ⟨e1, h1⟩ :=
        Option.isSome_iff_exists.mp (lookupTag_isSome_iff_mem_map.mpr hmemA)
      obtain ⟨e2, h2⟩ :=
        Option.isSome_iff_exists.mp (lookupTag_isSome_iff_mem_map.mpr hmemB)
      have ht : t ∈ allTags A B := mem_allTags.mpr (Or.inl hmemA)
      by_cases hd : findDifferences e1 e2 = []
      · exact Or.inr (mem_unchanged_tags.mpr ⟨ht, e1, e2, h1, h2, hd⟩)
      · exact Or.inl (mem_changed_tags.mpr ⟨ht, e1, e2, h1, h2, hd⟩)
  have hChgUncDisj : ∀ t, ¬(t ∈ (compareTakeoffs A B).changed.map DeltaChange.tag
      ∧ t ∈ (compareTakeoffs A B).unchanged.map tagKey) := by
    rintro t ⟨hc, hu⟩
    obtain ⟨_, e1, e2, h1, h2, hd⟩ := mem_changed_tags.mp hc
    obtain ⟨_, f1, f2, g1, g2, hd'⟩ := mem_unchanged_tags.mp hu
    obtain rfl := Option.some.inj (h1.symm.trans g1)
    obtain rfl := Option.some.inj (h2.symm.trans g2)
    exact hd hd'
  refine ⟨?_, hAddIff, hRemIff, hCUIff, ?_, ?_, ?_, ?_, ?_, hChgUncDisj⟩
  · intro t
    rw [hAddIff, hRemIff]
    have hcu := hCUIff t
    constructor
    · rintro (⟨hb, _⟩ | ⟨ha, _⟩ | h | h)
      · exact Or.inr hb
      · exact Or.inl ha
      · exact Or.inl (hChgBoth t h).1
      · exact Or.inl (hUncBoth t h).1
    · intro h
      by_cases hmemA : t ∈ A.map tagKey
      · by_cases hmemB : t ∈ B.map tagKey
        · rcases hcu.mpr ⟨hmemA, hmemB⟩ with h' | h'
          · exact Or.inr (Or.inr (Or.inl h'))
          · exact Or.inr (Or.inr (Or.inr h'))
        · exact Or.inr (Or.inl ⟨hmemA, hmemB⟩)
      · rcases h with h' | h'
        · exact absurd h' hmemA
        · exact Or.inl ⟨h', hmemA⟩
  · rintro t ⟨ha, hr⟩
    exact ((hRemIff t).mp hr).2 ((hAddIff t).mp ha).1
  · rintro t ⟨ha, hc⟩
    exact ((hAddIff t).mp ha).2 (hChgBoth t hc).1
  · rintro t ⟨ha, hu⟩
    exact ((hAddIff t).mp ha).2 (hUncBoth t hu).1
  · rintro t ⟨hr, hc⟩
    exact ((hRemIff t).mp hr).2 (hChgBoth t hc).2
  · rintro t ⟨hr, hu⟩
    exact ((hRemIff t).mp hr).2 (hUncBoth t hu).2

/-- Concrete one-record lists used to witness the diff theorems
(same tag up to case, different `type`). -/
def diffSampleOld : Equipment := ⟨"ahu-1", "AHU", "ahu", [], [], "", 1, 1⟩

def diffSampleNew : Equipment := ⟨"Ahu-1", "RTU", "ahu", [], [], "", 1, 1⟩

theorem diff_partitions_tags_witness :
    ("AHU-1" ∈ (compareTakeoffs [diffSampleOld] [diffSampleNew]).added.map tagKey
      ∨ "AHU-1" ∈ (compareTakeoffs [diffSampleOld] [diffSampleNew]).removed.map tagKey
      ∨ "AHU-1" ∈ (compareTakeoffs [diffSampleOld] [diffSampleNew]).changed.map DeltaChange.tag
      ∨ "AHU-1" ∈ (compareTakeoffs [diffSampleOld] [diffSampleNew]).unchanged.map tagKey)
    ↔ ("AHU-1" ∈ [diffSampleOld].map tagKey ∨ "AHU-1" ∈ [diffSampleNew].map tagKey) :=
  (diff_partitions_tags [diffSampleOld] [diffSampleNew] (by decide) (by decide)).1 "AHU-1"

theorem filter_not_mem_dedupFirst (l : List String) :
    (dedupFirst l).filter (fun s => s ∉ l) = [] := by
  rw [List.filter_eq_nil_iff]
  intro a ha
  simp [mem_dedupFirst.mp ha]

theorem findDifferences_self (e : Equipment) : findDifferences e e = [] := by
  unfold findDifferences
  dsimp only
  rw [filter_not_mem_dedupFirst, sub_self, abs_zero,
    if_neg (by norm_num : ¬((1:ℚ)/5 < 0)), if_neg (by simp), if_neg (by simp)]
  rfl

/-- C8: diffing a unique-tag list against itself yields no added, removed or
changed entries and exactly `|L|` unchanged entries. -/
theorem diff_self_unchanged (L : List Equipment) (h : (L.map tagKey).Nodup) :
    (compareTakeoffs L L).added = []
      ∧ (compareTakeoffs L L).removed = []
      ∧ (compareTakeoffs L L).changed = []
      ∧ (compareTakeoffs L L).unchanged.length = L.length := by
  have htags : allTags L L = L.map tagKey := by
    rw [allTags, dedupFirst_append_of_subset (fun y hy => hy), dedupFirst_nodup_eq h]
  unfold compareTakeoffs
  dsimp only
  refine ⟨?_, ?_, ?_, ?_⟩
  · rw [List.filterMap_eq_nil_iff]
    intro t ht
    cases hopt : lookupTag L t <;> rfl
  · rw [List.filterMap_eq_nil_iff]
    intro t ht
    cases hopt : lookupTag L t <;> rfl
  · rw [List.filterMap_eq_nil_iff]
    intro t ht
    cases hopt : lookupTag L t with
    | none => rfl
    | some e =>
      dsimp only
      rw [if_neg (by simp [findDifferences_self])]
  · rw [length_filterMap_of_all_some, htags, List.length_map]
    intro t ht
    rw [htags] at ht
    obtain ⟨e, he⟩ :=
      Option.isSome_iff_exists.mp (lookupTag_isSome_iff_mem_map.mpr ht)
    rw [he]
    dsimp only
    rw [if_pos (findDifferences_self e)]
    rfl

theorem diff_self_unchanged_witness :
    (compareTakeoffs [diffSampleOld] [diffSampleOld]).added = []
      ∧ (compareTakeoffs [diffSampleOld] [diffSampleOld]).removed = []
      ∧ (compareTakeoffs [diffSampleOld] [diffSampleOld]).changed = []
      ∧ (compareTakeoffs [diffSampleOld] [diffSampleOld]).unchanged.length
          = [diffSampleOld].length :=
  diff_self_unchanged [diffSampleOld] (by decide)

/-- C10: every changed entry carries the uppercased lookup-map key as its
`tag` (equal to the uppercased tag of both its `old` and `new` records),
while added/removed/unchanged entries are original input records. -/
theorem changed_carries_uppercased_tag (A B : List Equipment) :
    (∀ c ∈ (compareTakeoffs A B).changed,
        c.tag = tagKey c.old ∧ c.tag = tagKey c.new)
      ∧ (∀ e ∈ (compareTakeoffs A B).added, e ∈ B)
      ∧ (∀ e ∈ (compareTakeoffs A B).removed, e ∈ A)
      ∧ (∀ e ∈ (compareTakeoffs A B).unchanged, e ∈ A) := by
  unfold compareTakeoffs
  dsimp only
  refine ⟨?_, ?_, ?_, ?_⟩
  · intro c hc
    obtain ⟨t', ht', hf⟩ := List.mem_filterMap.mp hc
    cases h1 : lookupTag A t' <;> rw [h1] at hf
    · cases h2 : lookupTag B t' <;> rw [h2] at hf <;> simp at hf
    · cases h2 : lookupTag B t' <;> rw [h2] at hf
      · simp at hf
      · dsimp only at hf
        split at hf
        next =>
          obtain rfl := Option.some.inj hf
          exact ⟨((lookupTag_some h1).2).symm, ((lookupTag_some h2).2).symm⟩
        next => simp at hf
  · intro e he
    obtain ⟨t', ht', hf⟩ := List.mem_filterMap.mp he
    cases h1 : lookupTag A t' <;> rw [h1] at hf
    · cases h2 : lookupTag B t' <;> rw [h2] at hf
      · simp at hf
      · obtain rfl := Option.some.inj hf
        exact (lookupTag_some h2).1
    · cases h2 : lookupTag B t' <;> rw [h2] at hf <;> simp at hf
  · intro e he
    obtain ⟨t', ht', hf⟩ := List.mem_filterMap.mp he
    cases h1 : lookupTag A t' <;> rw [h1] at hf
    · cases h2 : lookupTag B t' <;> rw [h2] at hf <;> simp at hf
    · cases h2 : lookupTag B t' <;> rw [h2] at hf
      · obtain rfl := Option.some.inj hf
        exact (lookupTag_some h1).1
      · simp at hf
  · intro e he
    obtain ⟨t', ht', hf⟩ := List.mem_filterMap.mp he
    cases h1 : lookupTag A t' <;> rw [h1] at hf
    · cases h2 : lookupTag B t' <;> rw [h2] at hf <;> simp at hf
    · cases h2 : lookupTag B t' <;> rw [h2] at hf
      · simp at hf
      · dsimp only at hf
        split at hf
        next =>
          obtain rfl := Option.some.inj hf
          exact (lookupTag_some h1).1
        next => simp at hf

/-- The changed entry of `compareTakeoffs [diffSampleOld] [diffSampleNew]`. -/
def diffSampleChange : DeltaChange :=
  ⟨"AHU-1", diffSampleOld, diffSampleNew, ["Type changed: AHU → RTU"]⟩

theorem changed_carries_uppercased_tag_witness :
    diffSampleChange.tag = tagKey diffSampleChange.old
      ∧ diffSampleChange.tag = tagKey diffSampleChange.new :=
  (changed_carries_uppercased_tag [diffSampleOld] [diffSampleNew]).1
    diffSampleChange (by
      have h : (compareTakeoffs [diffSampleOld] [diffSampleNew]).changed
          = [diffSampleChange] := by
        with_unfolding_all rfl
      rw [h]
      exact List.mem_singleton_self _)

/-! ## Claims about the spec gap engine -/

theorem findMatchingSpecs_eq_nil {e : Equipment} {specs : List SpecSection}
    (h : ∀ sp ∈ specs, ∀ kw ∈ typeKeywords e.category,
      containsSub (specText sp).data kw.data = false) :
    findMatchingSpecs e specs = [] := by
  rw [findMatchingSpecs, List.filter_eq_nil_iff]
  intro sp hsp
  rw [Bool.not_eq_true, List.any_eq_false]
  intro kw hkw
  rw [Bool.not_eq_true]
  exact h sp hsp kw hkw

/-- C7: an equipment record with an empty `specReferences` list and no
category keyword occurring in any spec section's reference-plus-content text
gets a no-spec gap of severity `medium` when `confidence < 0.5` and `low`
otherwise; with confidence `0.9` (and hence neither the sizing rule nor the
low-confidence rule firing), the singleton list yields exactly that one
`low` gap. -/
theorem no_spec_gap_severity (e : Equipment) (specs : List SpecSection)
    (h1 : e.specs_references = [])
    (h2 : ∀ sp ∈ specs, ∀ kw ∈ typeKeywords e.category,
      containsSub (specText sp).data kw.data = false) :
    ((⟨e.tag, e.type, "No matching spec section found",
        if e.confidence < 1/2 then .medium else .low,
        some ("Create spec section for " ++ e.type)⟩ : SpecGap)
      ∈ findSpecGaps [e] specs)
    ∧ (e.confidence = 9/10 →
        findSpecGaps [e] specs
          = [⟨e.tag, e.type, "No matching spec section found", .low,
              some ("Create spec section for " ++ e.type)⟩]) := by
  have hmatch := findMatchingSpecs_eq_nil h2
  have hewspecs : ([e].filter (fun eq : Equipment => eq.specs_references ≠ [])).map
      Equipment.tag = [] := by
    rw [List.filter_cons, if_neg (by simp [h1])]
    rfl
  have hnospec : ([e].filterMap (fun eq : Equipment =>
      if eq.tag ∈ ([e].filter (fun eq : Equipment => eq.specs_references ≠ [])).map
          Equipment.tag then none
      else if findMatchingSpecs eq specs = [] then
        some { equipmentTag := eq.tag
               equipmentType := eq.type
               issue := "No matching spec section found"
               severity := if eq.confidence < 1/2 then .medium else .low
               suggestion := some ("Create spec section for " ++ eq.type) }
      else none))
      = [(⟨e.tag, e.type, "No matching spec section found",
          if e.confidence < 1/2 then .medium else .low,
          some ("Create spec section for " ++ e.type)⟩ : SpecGap)] := by
    rw [List.filterMap_cons]
    rw [hewspecs, if_neg (by simp), if_pos hmatch]
    rfl
  constructor
  · unfold findSpecGaps
    rw [List.mem_mergeSort]
    rw [hnospec]
    exact List.mem_append_left _ (List.mem_singleton_self _)
  · intro hc
    unfold findSpecGaps
    dsimp only
    rw [hnospec]
    have hper : perEquipmentGaps e = [] := by
      unfold perEquipmentGaps
      rw [hc]
      rw [if_neg (by norm_num), if_neg (by norm_num)]
      rfl
    have hflat : ([e].flatMap perEquipmentGaps) = [] := by
      simp [hper]
    rw [hflat, List.append_nil, List.mergeSort_singleton, hc]
    norm_num

/-- A spec section with no HVAC keywords, used to witness the gap claims. -/
def blandSection : SpecSection := ⟨"09 91 00", "Interior painting."⟩

def gapSample : Equipment :=
  ⟨"AHU-1", "Air Handling Unit", "ahu", [⟨"cooling", "50 tons"⟩], [], "", 9/10, 3⟩

theorem no_spec_gap_severity_witness :
    ((⟨gapSample.tag, gapSample.type, "No matching spec section found",
        if gapSample.confidence < 1/2 then .medium else .low,
        some ("Create spec section for " ++ gapSample.type)⟩ : SpecGap)
      ∈ findSpecGaps [gapSample] [blandSection])
    ∧ (gapSample.confidence = 9/10 →
        findSpecGaps [gapSample] [blandSection]
          = [⟨gapSample.tag, gapSample.type, "No matching spec section found",
              .low, some ("Create spec section for " ++ gapSample.type)⟩]) :=
  no_spec_gap_severity gapSample [blandSection] rfl (by decide)

theorem lowConfIssue_ne_noSpec (s : String) :
    "Low confidence extraction (" ++ s ++ "%)" ≠ "No matching spec section found" := by
  intro h
  have hd := congrArg String.data h
  rw [String.data_append, String.data_append] at hd
  have h1 : "Low confidence extraction (".data
      = 'L' :: "ow confidence extraction (".data := rfl
  have h2 : "No matching spec section found".data
      = 'N' :: "o matching spec section found".data := rfl
  rw [h1, h2, List.cons_append, List.cons_append] at hd
  injection hd with h3 _
  exact absurd h3 (by decide)

/-- C9: if some record in the input list has tag `t` and a nonempty
`specs_references` list, then `findSpecGaps` never emits a
"No matching spec section found" gap for tag `t` — the exemption is keyed on
the tag, not on the individual record. -/
theorem no_spec_gap_exempted_by_tag (equipment : List Equipment)
    (specs : List SpecSection) (t : String)
    (h : ∃ e ∈ equipment, e.tag = t ∧ e.specs_references ≠ []) :
    ∀ g ∈ findSpecGaps equipment specs, g.equipmentTag = t →
      g.issue ≠ "No matching spec section found" := by
  intro g hg hgt
  obtain ⟨e0, he0, he0t, he0refs⟩ := h
  unfold findSpecGaps at hg
  rw [List.mem_mergeSort, List.mem_append] at hg
  rcases hg with hg | hg
  · obtain ⟨e', he', hf⟩ := List.mem_filterMap.mp hg
    split at hf
    · simp at hf
    · next hnotin =>
      split at hf
      · obtain rfl := Option.some.inj hf
        have htag : e'.tag = t := hgt
        refine absurd ?_ hnotin
        rw [htag]
        rw [List.mem_map]
        refine ⟨e0, ?_, he0t⟩
        rw [List.mem_filter]
        exact ⟨he0, by simpa using he0refs⟩
      · simp at hf
  · obtain ⟨e', he', hgp⟩ := List.mem_flatMap.mp hg
    unfold perEquipmentGaps at hgp
    rw [List.mem_append] at hgp
    rcases hgp with hgp | hgp
    · split at hgp
      · rw [List.mem_singleton] at hgp
        subst hgp
        intro hiss
        have hiss' : "No sizing information extracted"
            = "No matching spec section found" := hiss
        exact absurd hiss' (by decide)
      · simp at hgp
    · split at hgp
      · rw [List.mem_singleton] at hgp
        subst hgp
        exact lowConfIssue_ne_noSpec _
      · simp at hgp

/-- A record whose tag also appears (same string) on a record with a
nonempty `specs_references` list. -/
def taggedSample : Equipment :=
  ⟨"AHU-1", "Air Handling Unit", "ahu", [⟨"cooling", "50 tons"⟩],
    ["23 73 00"], "", 1, 1⟩

def untaggedSample : Equipment :=
  ⟨"AHU-1", "Unknown", "zzz", [], [], "", 3/5, 2⟩

/-- The sizing gap that `findSpecGaps [taggedSample, untaggedSample] []`
emits for `untaggedSample` (its only gap). -/
def sizingGapSample : SpecGap :=
  ⟨"AHU-1", "Unknown", "No sizing information extracted", .high,
    some "Verify size in drawings or specs"⟩

theorem no_spec_gap_exempted_by_tag_witness :
    sizingGapSample.issue ≠ "No matching spec section found" :=
  no_spec_gap_exempted_by_tag [taggedSample, untaggedSample] [] "AHU-1"
    ⟨taggedSample, List.mem_cons_self _ _, rfl, by decide⟩
    sizingGapSample
    (by
      have h : findSpecGaps [taggedSample, untaggedSample] [] = [sizingGapSample] := by
        with_unfolding_all rfl
      rw [h]
      exact List.mem_singleton_self _)
    rfl

/-! ## Claims about the compliance checklist -/

theorem checklist_clock_inj (equipment : List Equipment)
    (specSections : List SpecSection) {t1 t2 : String}
    (h : generateComplianceChecklist equipment specSections t1
      = generateComplianceChecklist equipment specSections t2) : t1 = t2 := by
  unfold generateComplianceChecklist at h
  dsimp only at h
  simp only [List.cons_append, List.nil_append, joinLines] at h
  have hd := congrArg String.data h
  simp only [String.data_append, List.append_assoc] at hd
  have h1 := List.append_cancel_left hd
  have h2 := List.append_cancel_left h1
  have h3 := List.append_cancel_left h2
  have h4 := List.append_cancel_right h3
  exact congrArg String.mk h4

/-- C5 counterexample: the checklist text embeds the generation time
(`new Date().toISOString()`), so two invocations on identical equipment and
spec-section inputs but different clock readings return different text. -/
theorem checklist_differs_across_clock :
    generateComplianceChecklist [] [] "2024-01-01T00:00:00.000Z"
      ≠ generateComplianceChecklist [] [] "2024-01-02T00:00:00.000Z" :=
  fun h => absurd (checklist_clock_inj [] [] h) (by decide)

/-- C5 amended: `generateComplianceChecklist` is a pure, deterministic
rendering of (equipment, specSections) *and* the clock reading taken via
`new Date().toISOString()`: two invocations return identical text if and
only if those clock readings are equal. -/
theorem checklist_deterministic_given_clock (equipment : List Equipment)
    (specSections : List SpecSection) (t1 t2 : String) :
    generateComplianceChecklist equipment specSections t1
      = generateComplianceChecklist equipment specSections t2 ↔ t1 = t2 :=
  ⟨checklist_clock_inj equipment specSections, fun h => by rw [h]⟩

/-! ## Claims about section-number extraction -/

theorem digit_not_sep {c : Char} (h : isDigitChar c = true) : isSepChar c = false := by
  rw [isSepChar]
  by_contra hc
  simp only [Bool.not_eq_false, Bool.or_eq_true, decide_eq_true_eq] at hc
  rcases hc with (((h1 | h1) | h1) | h1) | h1 <;> subst h1 <;>
    exact absurd h (by decide)

theorem takeCount_eq_some {p : Char → Bool} :
    ∀ {n : Nat} {l a r : List Char}, takeCount p n l = some (a, r) →
      l = a ++ r ∧ a.length = n ∧ ∀ c ∈ a, p c = true := by
  intro n
  induction n with
  | zero =>
    intro l a r h
    simp only [takeCount, Option.some.injEq, Prod.mk.injEq] at h
    obtain ⟨rfl, rfl⟩ := h
    exact ⟨rfl, rfl, by simp⟩
  | succ n ih =>
    intro l a r h
    cases l with
    | nil => simp [takeCount] at h
    | cons c t =>
      simp only [takeCount] at h
      by_cases hp : p c = true
      · rw [if_pos hp] at h
        cases htc : takeCount p n t with
        | none => rw [htc] at h; simp at h
        | some ar =>
          rw [htc] at h
          obtain ⟨a', r'⟩ := ar
          simp only [Option.map_some', Option.some.injEq, Prod.mk.injEq] at h
          obtain ⟨rfl, rfl⟩ := h
          obtain ⟨hl, hlen, hall⟩ := ih htc
          refine ⟨by rw [List.cons_append, ← hl], by simp [hlen], ?_⟩
          intro x hx
          rcases List.mem_cons.mp hx with rfl | hx'
          · exact hp
          · exact hall x hx'
      · rw [if_neg hp] at h
        simp at h

theorem takeCount_append {p : Char → Bool} :
    ∀ {a : List Char} {n : Nat} {r : List Char}, a.length = n →
      (∀ c ∈ a, p c = true) → takeCount p n (a ++ r) = some (a, r) := by
  intro a
  induction a with
  | nil =>
    intro n r hlen _
    subst hlen
    simp [takeCount]
  | cons c t ih =>
    intro n r hlen hall
    subst hlen
    rw [List.cons_append, List.length_cons]
    simp only [takeCount]
    rw [if_pos (hall c (List.mem_cons_self c t)),
      ih rfl (fun x hx => hall x (List.mem_cons_of_mem _ hx))]
    rfl

theorem takeWhile_append_of_all {p : Char → Bool} {s rest : List Char}
    (h : ∀ c ∈ s, p c = true) :
    (s ++ rest).takeWhile p = s ++ rest.takeWhile p := by
  induction s with
  | nil => simp
  | cons c t ih =>
    rw [List.cons_append, List.takeWhile_cons,
      if_pos (h c (List.mem_cons_self c t)), List.cons_append,
      ih (fun x hx => h x (List.mem_cons_of_mem _ hx))]

theorem dropWhile_append_of_all {p : Char → Bool} {s rest : List Char}
    (h : ∀ c ∈ s, p c = true) :
    (s ++ rest).dropWhile p = rest.dropWhile p := by
  induction s with
  | nil => simp
  | cons c t ih =>
    rw [List.cons_append, List.dropWhile_cons,
      if_pos (h c (List.mem_cons_self c t)),
      ih (fun x hx => h x (List.mem_cons_of_mem _ hx))]

theorem takeWhile_eq_nil_of_head {p : Char → Bool} {l : List Char}
    (h : ∀ c, l.head? = some c → p c = false) : l.takeWhile p = [] := by
  cases l with
  | nil => rfl
  | cons c t =>
    rw [List.takeWhile_cons, if_neg (by rw [h c rfl]; simp)]

theorem dropWhile_eq_self_of_head {p : Char → Bool} {l : List Char}
    (h : ∀ c, l.head? = some c → p c = false) : l.dropWhile p = l := by
  cases l with
  | nil => rfl
  | cons c t =>
    rw [List.dropWhile_cons, if_neg (by rw [h c rfl]; simp)]

theorem head_not_sep_of_digits {g X : List Char} (hne : g ≠ [])
    (hd : ∀ c ∈ g, isDigitChar c = true) :
    ∀ c, (g ++ X).head? = some c → isSepChar c = false := by
  cases g with
  | nil => exact absurd rfl hne
  | cons a t =>
    intro c hc
    rw [List.cons_append, List.head?_cons] at hc
    obtain rfl := Option.some.inj hc
    exact digit_not_sep (hd a (List.mem_cons_self a t))

theorem matchAt_eq_some {l m : List Char} (h : matchAt l = some m) :
    ∃ g1 s1 g2 s2 g3 rest,
      l = g1 ++ s1 ++ g2 ++ s2 ++ g3 ++ rest
      ∧ m = g1 ++ s1 ++ g2 ++ s2 ++ g3
      ∧ g1.length = 2 ∧ g2.length = 2 ∧ g3.length = 4
      ∧ (∀ c ∈ g1, isDigitChar c = true) ∧ (∀ c ∈ g2, isDigitChar c = true)
      ∧ (∀ c ∈ g3, isDigitChar c = true)
      ∧ (∀ c ∈ s1, isSepChar c = true) ∧ (∀ c ∈ s2, isSepChar c = true) := by
  unfold matchAt at h
  cases h1 : takeCount isDigitChar 2 l with
  | none => rw [h1] at h; simp at h
  | some g1r1 =>
    obtain ⟨g1, r1⟩ := g1r1
    rw [h1] at h
    dsimp only at h
    cases h2 : takeCount isDigitChar 2 (r1.dropWhile isSepChar) with
    | none => rw [h2] at h; simp at h
    | some g2r3 =>
      obtain ⟨g2, r3⟩ := g2r3
      rw [h2] at h
      dsimp only at h
      cases h3 : takeCount isDigitChar 4 (r3.dropWhile isSepChar) with
      | none => rw [h3] at h; simp at h
      | some g3r4 =>
        obtain ⟨g3, rest⟩ := g3r4
        rw [h3] at h
        dsimp only at h
        obtain rfl := Option.some.inj h
        obtain ⟨hl1, hlen1, hd1⟩ := takeCount_eq_some h1
        obtain ⟨hl2, hlen2, hd2⟩ := takeCount_eq_some h2
        obtain ⟨hl3, hlen3, hd3⟩ := takeCount_eq_some h3
        refine ⟨g1, r1.takeWhile isSepChar, g2, r3.takeWhile isSepChar, g3, rest,
          ?_, rfl, hlen1, hlen2, hlen3, hd1, hd2, hd3,
          fun c hc => List.mem_takeWhile_imp hc,
          fun c hc => List.mem_takeWhile_imp hc⟩
        rw [hl1]
        conv_lhs => rw [← List.takeWhile_append_dropWhile (p := isSepChar) (l := r1)]
        rw [hl2]
        conv_lhs => rw [← List.takeWhile_append_dropWhile (p := isSepChar) (l := r3)]
        rw [hl3]
        simp only [List.append_assoc]

theorem matchAt_append {g1 s1 g2 s2 g3 rest : List Char}
    (hlen1 : g1.length = 2) (hlen2 : g2.length = 2) (hlen3 : g3.length = 4)
    (hd1 : ∀ c ∈ g1, isDigitChar c = true) (hd2 : ∀ c ∈ g2, isDigitChar c = true)
    (hd3 : ∀ c ∈ g3, isDigitChar c = true)
    (hs1 : ∀ c ∈ s1, isSepChar c = true) (hs2 : ∀ c ∈ s2, isSepChar c = true) :
    matchAt (g1 ++ s1 ++ g2 ++ s2 ++ g3 ++ rest)
      = some (g1 ++ s1 ++ g2 ++ s2 ++ g3) := by
  have hg2ne : g2 ≠ [] := by intro hx; rw [hx] at hlen2; simp at hlen2
  have hg3ne : g3 ≠ [] := by intro hx; rw [hx] at hlen3; simp at hlen3
  have hhead2 : ∀ c, (g2 ++ (s2 ++ (g3 ++ rest))).head? = some c → isSepChar c = false :=
    head_not_sep_of_digits hg2ne hd2
  have hhead3 : ∀ c, (g3 ++ rest).head? = some c → isSepChar c = false :=
    head_not_sep_of_digits hg3ne hd3
  unfold matchAt
  simp only [List.append_assoc]
  rw [takeCount_append hlen1 hd1]
  dsimp only
  rw [takeWhile_append_of_all hs1, takeWhile_eq_nil_of_head hhead2, List.append_nil,
    dropWhile_append_of_all hs1, dropWhile_eq_self_of_head hhead2,
    takeCount_append hlen2 hd2]
  dsimp only
  rw [takeWhile_append_of_all hs2, takeWhile_eq_nil_of_head hhead3, List.append_nil,
    dropWhile_append_of_all hs2, dropWhile_eq_self_of_head hhead3,
    takeCount_append hlen3 hd3]

theorem firstMatch_eq_some :
    ∀ {l m : List Char}, firstMatch l = some m →
      ∃ p r, l = p ++ r ∧ matchAt r = some m := by
  intro l
  induction l with
  | nil => intro m h; simp [firstMatch] at h
  | cons c t ih =>
    intro m h
    unfold firstMatch at h
    cases hma : matchAt (c :: t) with
    | some m' =>
      rw [hma] at h
      dsimp only at h
      obtain rfl := Option.some.inj h
      exact ⟨[], c :: t, rfl, hma⟩
    | none =>
      rw [hma] at h
      dsimp only at h
      obtain ⟨p, r, hl, hm⟩ := ih h
      exact ⟨c :: p, r, by rw [List.cons_append, hl], hm⟩

theorem firstMatch_isSome_of {r m : List Char} (hm : matchAt r = some m) :
    ∀ p : List Char, (firstMatch (p ++ r)).isSome := by
  intro p
  induction p with
  | nil =>
    rw [List.nil_append]
    cases r with
    | nil => simp [matchAt, takeCount] at hm
    | cons c t =>
      unfold firstMatch
      rw [hm]
      rfl
  | cons c p' ih =>
    rw [List.cons_append]
    unfold firstMatch
    cases hma : matchAt (c :: (p' ++ r)) with
    | some m' => rfl
    | none => exact ih

theorem normalizeSeps_nil : normalizeSeps [] = [] := by
  rw [normalizeSeps]

theorem normalizeSeps_append_of_not_sep {d rest : List Char}
    (h : ∀ c ∈ d, isSepChar c = false) :
    normalizeSeps (d ++ rest) = d ++ normalizeSeps rest := by
  induction d with
  | nil => simp
  | cons c t ih =>
    rw [List.cons_append, normalizeSeps,
      if_neg (by rw [h c (List.mem_cons_self c t)]; simp), List.cons_append,
      ih (fun x hx => h x (List.mem_cons_of_mem _ hx))]

theorem normalizeSeps_sep_run {s rest : List Char}
    (hs : ∀ c ∈ s, isSepChar c = true) (hne : s ≠ [])
    (hrest : ∀ c, rest.head? = some c → isSepChar c = false) :
    normalizeSeps (s ++ rest) = ' ' :: normalizeSeps rest := by
  cases s with
  | nil => exact absurd rfl hne
  | cons c t =>
    rw [List.cons_append, normalizeSeps, if_pos (hs c (List.mem_cons_self c t)),
      dropWhile_append_of_all (fun x hx => hs x (List.mem_cons_of_mem _ hx)),
      dropWhile_eq_self_of_head hrest]

/-- Normalization of a matched pattern: digit groups pass through unchanged
and each separator run collapses to one space (or disappears if it was
empty). -/
theorem normalizeSeps_match {g1 s1 g2 s2 g3 : List Char}
    (hlen2 : g2.length = 2) (hlen3 : g3.length = 4)
    (hd1 : ∀ c ∈ g1, isDigitChar c = true) (hd2 : ∀ c ∈ g2, isDigitChar c = true)
    (hd3 : ∀ c ∈ g3, isDigitChar c = true)
    (hs1 : ∀ c ∈ s1, isSepChar c = true) (hs2 : ∀ c ∈ s2, isSepChar c = true) :
    normalizeSeps (g1 ++ s1 ++ g2 ++ s2 ++ g3)
      = g1 ++ ((if s1 = [] then [] else [' '])
          ++ (g2 ++ ((if s2 = [] then [] else [' ']) ++ g3))) := by
  have hg2ne : g2 ≠ [] := by intro hx; rw [hx] at hlen2; simp at hlen2
  have hg3ne : g3 ≠ [] := by intro hx; rw [hx] at hlen3; simp at hlen3
  have hnd1 : ∀ c ∈ g1, isSepChar c = false := fun c hc => digit_not_sep (hd1 c hc)
  have hnd2 : ∀ c ∈ g2, isSepChar c = false := fun c hc => digit_not_sep (hd2 c hc)
  have hnd3 : ∀ c ∈ g3, isSepChar c = false := fun c hc => digit_not_sep (hd3 c hc)
  have hhead2 : ∀ c, (g2 ++ (s2 ++ g3)).head? = some c → isSepChar c = false :=
    head_not_sep_of_digits hg2ne hd2
  have hhead3 : ∀ c, g3.head? = some c → isSepChar c = false := by
    have := @head_not_sep_of_digits g3 ([] : List Char) hg3ne hd3
    simpa using this
  have hg3 : normalizeSeps g3 = g3 := by
    have h := @normalizeSeps_append_of_not_sep g3 ([] : List Char) hnd3
    simpa [normalizeSeps_nil] using h
  have htail : normalizeSeps (s2 ++ g3) = (if s2 = [] then [] else [' ']) ++ g3 := by
    by_cases h2 : s2 = []
    · subst h2
      rw [if_pos rfl, List.nil_append, hg3]
    · rw [if_neg h2, normalizeSeps_sep_run hs2 h2 hhead3, hg3]
      rfl
  simp only [List.append_assoc]
  rw [normalizeSeps_append_of_not_sep hnd1]
  congr 1
  by_cases h1 : s1 = []
  · subst h1
    rw [if_pos rfl, List.nil_append, List.nil_append,
      normalizeSeps_append_of_not_sep hnd2, htail]
  · rw [if_neg h1, normalizeSeps_sep_run hs1 h1 hhead2,
      normalizeSeps_append_of_not_sep hnd2, htail]
    rfl

/-- The claim's pattern, with the separator runs the regex actually allows
(zero or more `[\s-]` characters between the 2-, 2- and 4-digit groups). -/
def SectionPattern (ref : String) : Prop :=
  ∃ p g1 s1 g2 s2 g3 q : List Char,
    ref.data = p ++ g1 ++ s1 ++ g2 ++ s2 ++ g3 ++ q
    ∧ g1.length = 2 ∧ g2.length = 2 ∧ g3.length = 4
    ∧ (∀ c ∈ g1, isDigitChar c = true) ∧ (∀ c ∈ g2, isDigitChar c = true)
    ∧ (∀ c ∈ g3, isDigitChar c = true)
    ∧ (∀ c ∈ s1, isSepChar c = true) ∧ (∀ c ∈ s2, isSepChar c = true)

/-- The shape the extracted section number actually has: the 8 digits in
their three groups, with at most one space between adjacent groups (a space
exactly where the reference had a nonempty separator run). -/
def NormalizedOutput (s : String) : Prop :=
  ∃ g1 a1 g2 a2 g3 : List Char,
    s.data = g1 ++ a1 ++ g2 ++ a2 ++ g3
    ∧ g1.length = 2 ∧ g2.length = 2 ∧ g3.length = 4
    ∧ (∀ c ∈ g1, isDigitChar c = true) ∧ (∀ c ∈ g2, isDigitChar c = true)
    ∧ (∀ c ∈ g3, isDigitChar c = true)
    ∧ (a1 = [] ∨ a1 = [' ']) ∧ (a2 = [] ∨ a2 = [' '])

/-- Spec-side rendering of the claim's words: a string exactly of the form
`NN NN NNNN` (two digits, a space, two digits, a space, four digits). -/
def isSpaceSeparatedForm (s : String) : Bool :=
  match s.data with
  | [a, b, c, d, e, f, g, h, i, j] =>
      isDigitChar a && isDigitChar b && (c = ' ') && isDigitChar d && isDigitChar e
        && (f = ' ') && isDigitChar g && isDigitChar h && isDigitChar i && isDigitChar j
  | _ => false

/-- C6 counterexample: the regex separator `[\s-]*` admits zero separator
characters, so the reference `"23640000"` (its three digit groups adjacent,
with no separators) yields the section number `"23640000"`, which is not in
the normalized space-separated form `NN NN NNNN`. -/
theorem section_number_not_always_normalized :
    extractSectionNumber "23640000" = some "23640000"
      ∧ isSpaceSeparatedForm "23640000" = false :=
  ⟨by with_unfolding_all rfl, by rfl⟩

/-- C6 amended: a section number is extracted exactly when the reference
contains three groups of 2, 2 and 4 digits separated by *zero or more*
spaces/hyphens, and the extracted number consists of those 8 digits with
each nonempty separator run collapsed to a single space — groups written
adjacently stay adjacent, so the result is not always `NN NN NNNN`. -/
theorem extractSectionNumber_amended (ref : String) :
    ((extractSectionNumber ref).isSome ↔ SectionPattern ref)
      ∧ (∀ s, extractSectionNumber ref = some s → NormalizedOutput s) := by
  constructor
  · constructor
    · intro h
      rw [extractSectionNumber, Option.isSome_map'] at h
      obtain ⟨m, hm⟩ := Option.isSome_iff_exists.mp h
      obtain ⟨p, r, hl, hma⟩ := firstMatch_eq_some hm
      obtain ⟨g1, s1, g2, s2, g3, rest, hr, _, hlen1, hlen2, hlen3,
        hd1, hd2, hd3, hs1, hs2⟩ := matchAt_eq_some hma
      refine ⟨p, g1, s1, g2, s2, g3, rest, ?_,
        hlen1, hlen2, hlen3, hd1, hd2, hd3, hs1, hs2⟩
      rw [hl, hr]
      simp only [List.append_assoc]
    · rintro ⟨p, g1, s1, g2, s2, g3, q, heq, hlen1, hlen2, hlen3,
        hd1, hd2, hd3, hs1, hs2⟩
      rw [extractSectionNumber, Option.isSome_map']
      have hma := @matchAt_append g1 s1 g2 s2 g3 q hlen1 hlen2 hlen3 hd1 hd2 hd3 hs1 hs2
      have hsplit : ref.data = p ++ (g1 ++ s1 ++ g2 ++ s2 ++ g3 ++ q) := by
        rw [heq]
        simp only [List.append_assoc]
      rw [hsplit]
      exact firstMatch_isSome_of hma p
  · intro s hs
    rw [extractSectionNumber] at hs
    obtain ⟨m, hm, rfl⟩ := Option.map_eq_some'.mp hs
    obtain ⟨p, r, hl, hma⟩ := firstMatch_eq_some hm
    obtain ⟨g1, s1, g2, s2, g3, rest, hr, hmeq, hlen1, hlen2, hlen3,
      hd1, hd2, hd3, hs1, hs2⟩ := matchAt_eq_some hma
    refine ⟨g1, if s1 = [] then [] else [' '], g2, if s2 = [] then [] else [' '],
      g3, ?_, hlen1, hlen2, hlen3, hd1, hd2, hd3, ?_, ?_⟩
    · show normalizeSeps m = _
      rw [hmeq, normalizeSeps_match hlen2 hlen3 hd1 hd2 hd3 hs1 hs2]
      simp only [List.append_assoc]
    · split
      · exact Or.inl rfl
      · exact Or.inr rfl
    · split
      · exact Or.inl rfl
      · exact Or.inr rfl

theorem extractSectionNumber_amended_witness :
    SectionPattern "23-64 0000" ∧ NormalizedOutput "23 64 0000" :=
  ⟨(extractSectionNumber_amended "23-64 0000").1.mp (by
      have h : extractSectionNumber "23-64 0000" = some "23 64 0000" := by
        with_unfolding_all rfl
      rw [h]
      rfl),
   (extractSectionNumber_amended "23-64 0000").2 "23 64 0000" (by
      with_unfolding_all rfl)⟩
